import Mathlib

/-!
Verification development for the `vid_dup_finder` repository.

The definitions below are a shallow embedding of the Rust sources:
`src/library/video_hashing/temporal_hash.rs`,
`src/library/search_structures/{bk_tree,search_vec}.rs`,
`src/library/video_hashing/video_dup_finder.rs`,
`src/library/video_hashing/matches/match_group.rs`,
`src/generic_filesystem_cache/processing_fs_cache.rs`, and
`src/library/file_set.rs`.

Machine integers (`u32`, `u64`) are modelled as `Nat`; every arithmetic
operation performed by the embedded code stays far below `2^32`
(raw distances are at most `640`, the scaling tables are at most `640`,
so scaled distances are at most `409600`), hence no wrap-around has to be
modelled except for the explicitly saturating operations, which are
modelled with an explicit cap.  Paths are modelled as `String`.
-/

/-- HASH_NUM_IMAGES from `definitions.rs` (= 10). -/
def HASH_NUM_IMAGES : Nat := 10

/-- HASH_DISTANCE_SCALING_FACTOR from `definitions.rs` (= 1 <<< 6 = 64). -/
def HASH_DISTANCE_SCALING_FACTOR : Nat := 64

/-- HASH_FRAME_QWORDS = (HASH_IMAGE_X * HASH_IMAGE_Y) / 64 = (8*8)/64 = 1. -/
def HASH_FRAME_QWORDS : Nat := 1

/-- SPATIAL_HASH_QWORDS = HASH_FRAME_QWORDS * HASH_NUM_IMAGES = 10. -/
def SPATIAL_HASH_QWORDS : Nat := 10

/-- TEMPORAL_HASH_QWORDS = HASH_FRAME_QWORDS * (HASH_NUM_IMAGES - 1) = 9. -/
def TEMPORAL_HASH_QWORDS : Nat := 9

/-- Helper for `count_ones`: structural recursion on a fuel argument so the
kernel can evaluate it; `fuel ≥ n` always suffices since `n` halves each step. -/
def count_ones_aux : Nat → Nat → Nat
  | _, 0 => 0
  | 0, _ + 1 => 0
  | fuel + 1, n + 1 => (n + 1) % 2 + count_ones_aux fuel ((n + 1) / 2)

/-- `u64::count_ones`: the number of set bits of a machine word. -/
def count_ones (n : Nat) : Nat := count_ones_aux n n

/-- The fingerprint type `TemporalHash`.  The Rust struct stores fixed
arrays `[u64; 9]` / `[u64; 10]`; here they are lists whose length-10 /
length-9 shape is established by the constructor `TemporalHash.new`. -/
structure TemporalHash where
  thash : List Nat
  shash : List Nat
  num_frames : Nat
  src_path : String
deriving DecidableEq, Repr

instance : Inhabited TemporalHash := ⟨⟨[], [], 0, ""⟩⟩

/-- Error type `HashCreationErrorKind` (the `ImgOrFfmpegError` variant is
never produced by `TemporalHash::new` and carries an opaque payload in the
source; it is modelled with its path only). -/
inductive HashCreationErrorKind where
  | VideoTooShortError (path : String)
  | ImgOrFfmpegError (path : String)
  | EmptyHashError (path : String)
deriving DecidableEq, Repr

/-- `copy_from_slice` of a flattened hash into a zeroed fixed array:
`arr[..l.length] = l`, the rest stays `0`.  Faithful to the source
whenever `l.length ≤ len` (otherwise the Rust code panics). -/
def writeIntoZeros (len : Nat) (l : List Nat) : List Nat :=
  l ++ List.replicate (len - l.length) 0

/-- `TemporalHash::shash_is_all_zeroes`. -/
def TemporalHash.shash_is_all_zeroes (h : TemporalHash) : Bool :=
  h.shash.all (fun v => v == 0)

/-- `TemporalHash::thash_is_all_zeroes`. -/
def TemporalHash.thash_is_all_zeroes (h : TemporalHash) : Bool :=
  h.thash.all (fun v => v == 0)

/-- `TemporalHash::new`.  Inputs are the per-frame spatial hash words and
the between-frame temporal hash words, one inner list per frame. -/
def TemporalHash.new (src_path : String) (spatial_hash temporal_hash : List (List Nat)) :
    Except HashCreationErrorKind TemporalHash :=
  let spatial_len := spatial_hash.length
  if spatial_len < 2 then
    .error (.VideoTooShortError src_path)
  else
    let flattened_spatial_hash := spatial_hash.flatten
    let spatial_arr := writeIntoZeros SPATIAL_HASH_QWORDS flattened_spatial_hash
    let flattened_temporal_hash := temporal_hash.flatten
    let temporal_arr := writeIntoZeros TEMPORAL_HASH_QWORDS flattened_temporal_hash
    let ret : TemporalHash :=
      { thash := temporal_arr
        shash := spatial_arr
        num_frames := spatial_len
        src_path := src_path }
    if ret.shash_is_all_zeroes && ret.thash_is_all_zeroes then
      .error (.EmptyHashError src_path)
    else
      .ok ret

/-- `raw_distance`: fold of XOR popcounts over the two (equal-length)
fixed arrays. -/
def raw_distance (x y : List Nat) : Nat :=
  (x.zip y).foldl (fun acc p => acc + count_ones (Nat.xor p.1 p.2)) 0

/-- `TemporalHash::calc_lut_entry`.  The source computes
`(scaling as f64) * (1.0 / (frame_no as f64 / max_frames as f64))` and
truncates with `as u32`.  For every input the program uses
(`frame_no ∈ 1..=10`, `max_frames = 10`) the IEEE-754 double computation
truncates to exactly the natural-number floor division below. -/
def calc_lut_entry (frame_no max_frames : Nat) : Nat :=
  HASH_DISTANCE_SCALING_FACTOR * max_frames / frame_no

/-- `TemporalHash::TEMPORAL_LUT` (length `HASH_NUM_IMAGES`, entry 0 is a
never-read placeholder equal to 0). -/
def TEMPORAL_LUT : List Nat :=
  (List.range HASH_NUM_IMAGES).map fun i =>
    if i = 0 then 0 else calc_lut_entry i HASH_NUM_IMAGES

/-- `TemporalHash::SPATIAL_LUT` (length `HASH_NUM_IMAGES + 1`, entry 0 is a
never-read placeholder equal to 0). -/
def SPATIAL_LUT : List Nat :=
  (List.range (HASH_NUM_IMAGES + 1)).map fun i =>
    if i = 0 then 0 else calc_lut_entry i HASH_NUM_IMAGES

/-- `TemporalHash::temporal_distance`.  The unchecked LUT index is in
bounds for every fingerprint the program constructs (`2 ≤ num_frames ≤ 10`);
`getD _ 0` agrees with the source at all in-bounds indices. -/
def TemporalHash.temporal_distance (a b : TemporalHash) : Nat :=
  let num_qwords := min a.num_frames b.num_frames - 1
  let raw_dist := raw_distance a.thash b.thash
  raw_dist * TEMPORAL_LUT.getD num_qwords 0

/-- `TemporalHash::spatial_distance`. -/
def TemporalHash.spatial_distance (a b : TemporalHash) : Nat :=
  let num_qwords := min a.num_frames b.num_frames
  let raw_dist := raw_distance a.shash b.shash
  raw_dist * SPATIAL_LUT.getD num_qwords 0

/-- The `Distance` pair (field order as in the source: temporal first). -/
structure Distance where
  temporal : Nat
  spatial : Nat
deriving DecidableEq, Repr

/-- `TemporalHash::distance`. -/
def TemporalHash.distance (a b : TemporalHash) : Distance :=
  { spatial := a.spatial_distance b
    temporal := a.temporal_distance b }

/-- The integer tolerance pair `ScaledTolerance`. -/
structure ScaledTolerance where
  spatial : Nat
  temporal : Nat
deriving DecidableEq, Repr

/-- `Distance::within_tolerance`. -/
def Distance.within_tolerance (d : Distance) (tolerance : ScaledTolerance) : Bool :=
  d.spatial ≤ tolerance.spatial && d.temporal ≤ tolerance.temporal

/-- `Distance::u32_value` (`temporal + spatial`). -/
def Distance.u32_value (d : Distance) : Nat :=
  d.temporal + d.spatial

theorem count_ones_seven : count_ones 7 = 3 := by decide

theorem temporal_lut_values :
    TEMPORAL_LUT = [0, 640, 320, 213, 160, 128, 106, 91, 80, 71] := by decide

theorem spatial_lut_values :
    SPATIAL_LUT = [0, 640, 320, 213, 160, 128, 106, 91, 80, 71, 64] := by decide

/-- An entry of the linear-scan backend (`SearchVecEntry`): a fingerprint
plus its taint flag (an `AtomicBool` in the source; mutations of the flag
are modelled by explicit state passing). -/
structure SearchVecEntry where
  value_tainted : Bool
  value : TemporalHash
deriving DecidableEq, Repr

instance : Inhabited SearchVecEntry := ⟨⟨false, default⟩⟩

/-- The linear-scan backend `SearchVec`. -/
structure SearchVec where
  entries : List SearchVecEntry
deriving DecidableEq, Repr

/-- `SearchVec::new`. -/
def SearchVec.new : SearchVec := ⟨[]⟩

/-- `SearchVec::seed`: push an untainted entry. -/
def SearchVec.seed (sv : SearchVec) (new_entry : TemporalHash) : SearchVec :=
  ⟨sv.entries ++ [⟨false, new_entry⟩]⟩

/-- `SearchVec::len`. -/
def SearchVec.len (sv : SearchVec) : Nat := sv.entries.length

/-- Body of `SearchVec::search_one`: scan the entries in order, emit every
untainted entry within tolerance, and (when `consume`) taint it.  Returns
the emitted values and the updated entries. -/
def searchOneEntries (entries : List SearchVecEntry) (value : TemporalHash)
    (tolerance : ScaledTolerance) (consume : Bool) :
    List TemporalHash × List SearchVecEntry :=
  match entries with
  | [] => ([], [])
  | e :: rest =>
    let d := value.distance e.value
    let hit := (d.spatial ≤ tolerance.spatial && !e.value_tainted)
        && (d.temporal ≤ tolerance.temporal && !e.value_tainted)
    let e' : SearchVecEntry := ⟨e.value_tainted || (hit && consume), e.value⟩
    let res := searchOneEntries rest value tolerance consume
    ((if hit then [e.value] else []) ++ res.1, e' :: res.2)

/-- `SearchVec::search_one`. -/
def SearchVec.search_one (sv : SearchVec) (value : TemporalHash)
    (tolerance : ScaledTolerance) (consume : Bool) : List TemporalHash × SearchVec :=
  let r := searchOneEntries sv.entries value tolerance consume
  (r.1, ⟨r.2⟩)

/-- `SearchVec::search_deterministic`: serial iteration over the queries,
dropping empty per-query result lists. -/
def SearchVec.search_deterministic (sv : SearchVec) (values : List TemporalHash)
    (tolerance : ScaledTolerance) (consume : Bool) :
    List (List TemporalHash) × SearchVec :=
  match values with
  | [] => ([], sv)
  | v :: rest =>
    let r := sv.search_one v tolerance consume
    let rr := r.2.search_deterministic rest tolerance consume
    ((if r.1.isEmpty then [] else [r.1]) ++ rr.1, rr.2)

/-- `SearchVec::fetch_unmatched_items`: the first `count` untainted values. -/
def SearchVec.fetch_unmatched_items (sv : SearchVec) (count : Nat) : List TemporalHash :=
  ((sv.entries.filter (fun e => !e.value_tainted)).map (fun e => e.value)).take count

/-- `Vec::swap_remove(i)`: replace element `i` with the last element and pop
(the source relies on `i` being in bounds). -/
def swapRemove {α : Type} (l : List α) (i : Nat) : List α :=
  match l.getLast? with
  | none => l
  | some z => (l.set i z).dropLast

/-- The loop of `SearchVec::into_without_unmatched`: for `i` from `len-1`
down to `0`, `swap_remove(i)` whenever entry `i` is tainted.  The fuel
argument is the next index plus one. -/
def removeTaintedFrom (l : List SearchVecEntry) : Nat → List SearchVecEntry
  | 0 => l
  | i + 1 =>
    let l' := if (l.getD i ⟨false, default⟩).value_tainted then swapRemove l i else l
    removeTaintedFrom l' i

/-- `SearchVec::into_without_unmatched`. -/
def SearchVec.into_without_unmatched (sv : SearchVec) : SearchVec :=
  ⟨removeTaintedFrom sv.entries sv.entries.length⟩

mutual

/-- The BK-tree backend.  The source stores children in a
`HashMap<u32, BkTree>`; iteration order of a `HashMap` is unspecified, so
the map is modelled as an association list in insertion order (keys are
distinct by construction).  The taint flag is an `AtomicBool`, modelled by
state passing. -/
inductive BkTree where
  | mk (value : Option TemporalHash) (value_tainted : Bool) (children : BkChildren)

/-- The children map of a `BkTree` node, keyed by combined distance. -/
inductive BkChildren where
  | nil
  | cons (key : Nat) (child : BkTree) (rest : BkChildren)

end

/-- Root value of a node. -/
def BkTree.value : BkTree → Option TemporalHash
  | .mk v _ _ => v

/-- Root taint flag of a node. -/
def BkTree.value_tainted : BkTree → Bool
  | .mk _ t _ => t

/-- Children of a node. -/
def BkTree.children : BkTree → BkChildren
  | .mk _ _ c => c

/-- `BkTree::new`. -/
def BkTree.new : BkTree := .mk none false .nil

mutual

/-- `BkTree::seed`. -/
def BkTree.seed : BkTree → TemporalHash → BkTree
  | .mk none t ch, e => .mk (some e) t ch
  | .mk (some v) t ch, e =>
    let d := (v.distance e).u32_value
    .mk (some v) t (BkChildren.seedAt ch d e)

/-- Insertion into the children map: recurse into the child stored at
distance `d` when it exists, else create a new child holding the entry
(`Self::new()` followed by `seed` on the empty tree just sets the value). -/
def BkChildren.seedAt : BkChildren → Nat → TemporalHash → BkChildren
  | .nil, d, e => .cons d (.mk (some e) false .nil) .nil
  | .cons k c rest, d, e =>
    if k = d then .cons k (c.seed e) rest
    else .cons k c (BkChildren.seedAt rest d e)

end

/-- `u32::MAX`. -/
def U32_MAX : Nat := 2 ^ 32 - 1

/-- `u32::saturating_add` (`Nat` subtraction already models
`u32::saturating_sub` for in-range operands). -/
def satAdd (a b : Nat) : Nat := min (a + b) U32_MAX

mutual

/-- `BkTree::search_inner`: emit the node value when it is untainted and
both distance components are within tolerance (tainting it when
`consume`), then descend into the children whose stored key lies in both
the spatial and the temporal candidate range. -/
def BkTree.search_inner : BkTree → TemporalHash → ScaledTolerance → Bool →
    List TemporalHash × BkTree
  | .mk none t ch, _, _, _ => ([], .mk none t ch)
  | .mk (some v) tainted ch, value, tolerance, consume =>
    let dist := v.distance value
    let spatial_min_distance := dist.spatial - tolerance.spatial
    let spatial_max_distance := satAdd dist.spatial tolerance.spatial
    let temporal_min_distance := dist.temporal - tolerance.temporal
    let temporal_max_distance := satAdd dist.temporal tolerance.temporal
    let hit := (dist.spatial ≤ tolerance.spatial && !tainted)
        && (dist.temporal ≤ tolerance.temporal && !tainted)
    let emitted := if hit then [v] else []
    let tainted' := tainted || (hit && consume)
    let r := BkChildren.searchRange ch value tolerance consume
      spatial_min_distance spatial_max_distance temporal_min_distance temporal_max_distance
    (emitted ++ r.1, .mk (some v) tainted' r.2)

/-- Descend into the children whose stored key is inside both ranges. -/
def BkChildren.searchRange : BkChildren → TemporalHash → ScaledTolerance → Bool →
    Nat → Nat → Nat → Nat → List TemporalHash × BkChildren
  | .nil, _, _, _, _, _, _, _ => ([], .nil)
  | .cons k c rest, value, tolerance, consume, smin, smax, tmin, tmax =>
    let r :=
      if smin ≤ k && k ≤ smax && (tmin ≤ k && k ≤ tmax) then
        c.search_inner value tolerance consume
      else
        ([], c)
    let rr := BkChildren.searchRange rest value tolerance consume smin smax tmin tmax
    (r.1 ++ rr.1, .cons k r.2 rr.2)

end

/-- `BkTree::search_one`: run `search_inner` from the root, then
unconditionally store `true` into the root's taint flag. -/
def BkTree.search_one (t : BkTree) (value : TemporalHash)
    (tolerance : ScaledTolerance) (consume : Bool) : List TemporalHash × BkTree :=
  let r := t.search_inner value tolerance consume
  (r.1, .mk r.2.value true r.2.children)

/-- `BkTree::search_deterministic`: serial iteration over the queries,
dropping empty per-query result lists. -/
def BkTree.search_deterministic (t : BkTree) (values : List TemporalHash)
    (tolerance : ScaledTolerance) (consume : Bool) :
    List (List TemporalHash) × BkTree :=
  match values with
  | [] => ([], t)
  | v :: rest =>
    let r := t.search_one v tolerance consume
    let rr := r.2.search_deterministic rest tolerance consume
    ((if r.1.isEmpty then [] else [r.1]) ++ rr.1, rr.2)

mutual

/-- `BkTree::len`: count untainted stored values. -/
def BkTree.len : BkTree → Nat
  | .mk v t ch =>
    (if v.isNone || t then 0 else 1) + BkChildren.lenSum ch

/-- Sum of `len` over the children. -/
def BkChildren.lenSum : BkChildren → Nat
  | .nil => 0
  | .cons _ c rest => c.len + BkChildren.lenSum rest

end

mutual

/-- `BkTree::into_unmatched_items`: the untainted root value (if any)
followed by the children's unmatched items. -/
def BkTree.into_unmatched_items : BkTree → List TemporalHash
  | .mk v tainted ch =>
    (match v with
      | some x => if tainted then [] else [x]
      | none => []) ++ BkChildren.unmatchedItems ch

/-- Unmatched items of the children, in map order. -/
def BkChildren.unmatchedItems : BkChildren → List TemporalHash
  | .nil => []
  | .cons _ c rest => c.into_unmatched_items ++ BkChildren.unmatchedItems rest

end

/-- `impl From<I> for BkTree`: seed every item into a fresh tree. -/
def BkTree.fromList (l : List TemporalHash) : BkTree :=
  l.foldl BkTree.seed BkTree.new

/-- `BkTree::into_without_unmatched`. -/
def BkTree.into_without_unmatched (t : BkTree) : BkTree :=
  BkTree.fromList t.into_unmatched_items

mutual

/-- `BkTree::fetch_unmatched_items_inner`: visit the children first (with
an early return of the whole traversal once `count` items are collected,
skipping the root value), then append the untainted root value when still
below `count`.  The Bool marks the early return. -/
def BkTree.fetchInner : BkTree → Nat → List TemporalHash → List TemporalHash × Bool
  | .mk v tainted ch, count, ret =>
    let r := BkChildren.fetchFrom ch count ret
    if r.2 then r
    else if r.1.length < count then
      (r.1 ++ (match v with
        | some x => if tainted then [] else [x]
        | none => []), false)
    else (r.1, false)

/-- Child loop of `fetch_unmatched_items_inner`: before each child, return
early when `count` items have been collected. -/
def BkChildren.fetchFrom : BkChildren → Nat → List TemporalHash → List TemporalHash × Bool
  | .nil, _, ret => (ret, false)
  | .cons _ c rest, count, ret =>
    if ret.length < count then
      BkChildren.fetchFrom rest count (c.fetchInner count ret).1
    else (ret, true)

end

/-- `BkTree::fetch_unmatched_items`. -/
def BkTree.fetch_unmatched_items (t : BkTree) (count : Nat) : List TemporalHash :=
  (t.fetchInner count []).1

/-- `MatchGroup` from `match_group.rs`. -/
structure MatchGroup where
  reference : Option String
  duplicates : List String
deriving DecidableEq, Repr

/-- `MatchGroup::new`: no reference, entries taken as given. -/
def MatchGroup.new (entries : List String) : MatchGroup :=
  { reference := none, duplicates := entries }

/-- `MatchGroup::reference`. -/
def MatchGroup.getReference (g : MatchGroup) : Option String :=
  g.reference

/-- `MatchGroup::len`. -/
def MatchGroup.len (g : MatchGroup) : Nat :=
  g.duplicates.length + (match g.reference with | some _ => 1 | none => 0)

/-- `itertools::combinations(2)` on a list: the pairs `[l[i], l[j]]`, `i < j`,
ordered lexicographically by `(i, j)`. -/
def combinationsTwo {α : Type} : List α → List (List α)
  | [] => []
  | x :: xs => (xs.map fun y => [x, y]) ++ combinationsTwo xs

/-- `MatchGroup::cartesian_product`.  The cache lookup `get_hash` is
modelled as a total map from paths to fingerprints (the source unwraps the
lookup, panicking when the path is absent). -/
def MatchGroup.cartesian_product (g : MatchGroup) (tolerance : ScaledTolerance)
    (get_hash : String → TemporalHash) : List MatchGroup :=
  match g.reference with
  | some reference =>
    g.duplicates.map fun entry => MatchGroup.new [reference, entry]
  | none =>
    ((combinationsTwo g.duplicates).filter fun vec =>
      let a_hash := get_hash (vec.getD 0 "")
      let b_hash := get_hash (vec.getD 1 "")
      (a_hash.distance b_hash).within_tolerance tolerance).map MatchGroup.new

/-- The default extension blacklist `FileSet::EXCL_EXTS` from
`file_set.rs`. -/
def EXCL_EXTS : List String := ["png", "jpg", "jpeg", "gif", "txt"]

/-- `str::to_lowercase`, restricted to per-character lowering (for the
ASCII extension strings compared in `should_keep` this agrees with the
full Unicode lowering). -/
def to_lowercase (s : String) : String :=
  ⟨s.data.map Char.toLower⟩

/-- The extension test inside `FileSet::should_keep`: a path is excluded by
extension exactly when the lowercased extension (empty when the path has
none, as `unwrap_or_default` yields `""`) equals a blacklisted extension.
The argument is `Path::extension()` of the candidate path. -/
def excludedByExtension (extension : Option String) : Bool :=
  EXCL_EXTS.any fun ext => (to_lowercase (extension.getD "") == ext)

/-- `FileSet::should_keep`, restricted to its extension conjunct: the other
two conjuncts (`is_file`, exclude-root test) do not involve extensions. -/
def keptByExtensionFilter (extension : Option String) : Bool :=
  !(excludedByExtension extension)

/-- The extension blacklist the specification claims
(`{png, jpg, bmp, jpeg, txt, text, db}`); this definition follows the
spec's words, for comparison against `EXCL_EXTS` from the source. -/
def specClaimedExts : List String := ["png", "jpg", "bmp", "jpeg", "txt", "text", "db"]

/-- Projection used throughout: the source paths of a list of
fingerprints. -/
def pathsOf (l : List TemporalHash) : List String :=
  l.map TemporalHash.src_path

/-- The per-entry match test of `SearchVec::search_one` (the taint flag is
read twice in the source; both reads see the same value here). -/
def vecHit (value : TemporalHash) (tolerance : ScaledTolerance) (e : SearchVecEntry) : Bool :=
  let d := value.distance e.value
  (d.spatial ≤ tolerance.spatial && !e.value_tainted)
    && (d.temporal ≤ tolerance.temporal && !e.value_tainted)

/-- The per-entry state update of `SearchVec::search_one`. -/
def vecStep (value : TemporalHash) (tolerance : ScaledTolerance) (consume : Bool)
    (e : SearchVecEntry) : SearchVecEntry :=
  ⟨e.value_tainted || (vecHit value tolerance e && consume), e.value⟩

theorem searchOneEntries_cons (e : SearchVecEntry) (rest : List SearchVecEntry)
    (v : TemporalHash) (tol : ScaledTolerance) (c : Bool) :
    searchOneEntries (e :: rest) v tol c =
      ((if vecHit v tol e then [e.value] else []) ++ (searchOneEntries rest v tol c).1,
        vecStep v tol c e :: (searchOneEntries rest v tol c).2) := rfl

theorem searchOneEntries_eq (l : List SearchVecEntry) (v : TemporalHash)
    (tol : ScaledTolerance) (c : Bool) :
    searchOneEntries l v tol c =
      ((l.filter (vecHit v tol)).map SearchVecEntry.value, l.map (vecStep v tol c)) := by
  induction l with
  | nil => rfl
  | cons e rest ih =>
    rw [searchOneEntries_cons, ih]
    cases h : vecHit v tol e <;> simp [h, List.filter_cons]

theorem count_ones_zero : count_ones 0 = 0 := rfl

theorem raw_distance_self (x : List Nat) : raw_distance x x = 0 := by
  have aux : ∀ (l : List Nat) (acc : Nat),
      (l.zip l).foldl (fun acc p => acc + count_ones (Nat.xor p.1 p.2)) acc = acc := by
    intro l
    induction l with
    | nil => intro acc; rfl
    | cons a rest ih =>
      intro acc
      have hx : Nat.xor a a = 0 := Nat.xor_self a
      simp only [List.zip_cons_cons, List.foldl_cons, hx, count_ones_zero, Nat.add_zero]
      exact ih acc
  exact aux x 0

theorem distance_self (h : TemporalHash) : h.distance h = ⟨0, 0⟩ := by
  simp [TemporalHash.distance, TemporalHash.spatial_distance, TemporalHash.temporal_distance,
    raw_distance_self]

/-- `search_one` of the linear backend, stated through the per-entry
characterization. -/
theorem vecSearchOne_eq (sv : SearchVec) (v : TemporalHash) (tol : ScaledTolerance) (c : Bool) :
    sv.search_one v tol c =
      (((sv.entries.filter (vecHit v tol)).map SearchVecEntry.value),
        ⟨sv.entries.map (vecStep v tol c)⟩) := by
  simp [SearchVec.search_one, searchOneEntries_eq]

/-- Taint flags never revert: `vecStep` keeps a tainted entry tainted. -/
theorem vecStep_mono (v : TemporalHash) (tol : ScaledTolerance) (c : Bool)
    (e : SearchVecEntry) (h : e.value_tainted = true) :
    (vecStep v tol c e).value_tainted = true := by
  simp [vecStep, h]

theorem vecStep_value (v : TemporalHash) (tol : ScaledTolerance) (c : Bool)
    (e : SearchVecEntry) : (vecStep v tol c e).value = e.value := rfl

/-- The per-entry state update performed by a whole serial batch of
queries. -/
def vecStepMany (qs : List TemporalHash) (tol : ScaledTolerance) (c : Bool)
    (e : SearchVecEntry) : SearchVecEntry :=
  qs.foldl (fun e q => vecStep q tol c e) e

/-- After a serial batch, each entry is its pointwise update: the backend
state of `search_deterministic` is a `map` over the seeded entries. -/
theorem vecSearchDet_entries (qs : List TemporalHash) :
    ∀ (sv : SearchVec) (tol : ScaledTolerance) (c : Bool),
      (sv.search_deterministic qs tol c).2.entries =
        sv.entries.map (vecStepMany qs tol c) := by
  induction qs with
  | nil =>
    intro sv tol c
    have hid : vecStepMany [] tol c = fun (e : SearchVecEntry) => e := rfl
    simp [SearchVec.search_deterministic, hid]
  | cons q rest ih =>
    intro sv tol c
    simp only [SearchVec.search_deterministic]
    rw [ih, vecSearchOne_eq]
    simp only [List.map_map]
    rfl

theorem vecStepMany_value (qs : List TemporalHash) :
    ∀ (tol : ScaledTolerance) (c : Bool) (e : SearchVecEntry),
      (vecStepMany qs tol c e).value = e.value := by
  induction qs with
  | nil => intro tol c e; rfl
  | cons q rest ih =>
    intro tol c e
    simp only [vecStepMany, List.foldl_cons]
    exact ih tol c (vecStep q tol c e)

theorem vecStepMany_taint_mono (qs : List TemporalHash) :
    ∀ (tol : ScaledTolerance) (c : Bool) (e : SearchVecEntry),
      e.value_tainted = true → (vecStepMany qs tol c e).value_tainted = true := by
  induction qs with
  | nil => intro tol c e h; exact h
  | cons q rest ih =>
    intro tol c e h
    simp only [vecStepMany, List.foldl_cons]
    exact ih tol c (vecStep q tol c e) (vecStep_mono q tol c e h)

theorem swapRemove_last {α : Type} (l : List α) (i : Nat) (h : i + 1 = l.length) :
    swapRemove l i = l.take i := by
  have hne : l ≠ [] := by
    intro hnil; rw [hnil] at h; simp at h
  have hi : i < l.length := by omega
  rw [swapRemove, List.getLast?_eq_getLast l hne]
  show (l.set i (l.getLast hne)).dropLast = l.take i
  rw [List.set_eq_take_cons_drop _ hi]
  have hdrop : l.drop (i + 1) = [] := by
    apply List.drop_eq_nil_of_le; omega
  rw [hdrop]
  exact List.dropLast_concat

theorem swapRemove_mid {α : Type} (l : List α) (i : Nat) (h : i + 1 < l.length)
    (hne : l ≠ []) :
    swapRemove l i = l.take i ++ l.getLast hne :: (l.drop (i + 1)).dropLast := by
  have hi : i < l.length := by omega
  rw [swapRemove, List.getLast?_eq_getLast l hne]
  show (l.set i (l.getLast hne)).dropLast =
    l.take i ++ l.getLast hne :: (l.drop (i + 1)).dropLast
  rw [List.set_eq_take_cons_drop _ hi]
  have hdne : l.drop (i + 1) ≠ [] := by
    intro hnil
    have := congrArg List.length hnil
    simp at this
    omega
  rw [List.dropLast_append_of_ne_nil _ (by simp), List.dropLast_cons_of_ne_nil hdne]

theorem swapRemove_perm {α : Type} (l : List α) (i : Nat) (h : i < l.length) :
    List.Perm (swapRemove l i) (l.eraseIdx i) := by
  rcases Nat.lt_or_ge (i + 1) l.length with hmid | hlast
  · have hne : l ≠ [] := by
      intro hnil; rw [hnil] at h; simp at h
    have hdne : l.drop (i + 1) ≠ [] := by
      intro hnil
      have := congrArg List.length hnil
      simp at this
      omega
    have hz : (l.drop (i + 1)).getLast hdne = l.getLast hne := List.getLast_drop hdne
    have hsplit : (l.drop (i + 1)).dropLast ++ [l.getLast hne] = l.drop (i + 1) := by
      rw [← hz]; exact List.dropLast_append_getLast hdne
    rw [swapRemove_mid l i hmid hne, List.eraseIdx_eq_take_drop_succ]
    conv_rhs => rw [← hsplit]
    exact List.Perm.append_left _ (List.perm_append_singleton _ _).symm
  · have hlen : i + 1 = l.length := by omega
    rw [swapRemove_last l i hlen, List.eraseIdx_eq_take_drop_succ]
    have hdrop : l.drop (i + 1) = [] := by
      apply List.drop_eq_nil_of_le; omega
    rw [hdrop, List.append_nil]

theorem swapRemove_length {α : Type} (l : List α) (i : Nat) (h : i < l.length) :
    (swapRemove l i).length = l.length - 1 := by
  rw [(swapRemove_perm l i h).length_eq, List.length_eraseIdx]
  simp [h]

theorem swapRemove_drop_subset {α : Type} (l : List α) (i : Nat) (h : i < l.length) :
    ∀ e ∈ (swapRemove l i).drop i, e ∈ l.drop (i + 1) := by
  rcases Nat.lt_or_ge (i + 1) l.length with hmid | hlast
  · have hne : l ≠ [] := by
      intro hnil; rw [hnil] at h; simp at h
    have hdne : l.drop (i + 1) ≠ [] := by
      intro hnil
      have := congrArg List.length hnil
      simp at this
      omega
    rw [swapRemove_mid l i hmid hne]
    have htk : (l.take i).length = i := by
      rw [List.length_take]; omega
    rw [List.drop_left' htk]
    intro e he
    rcases List.mem_cons.mp he with rfl | he2
    · rw [← List.getLast_drop hdne]
      exact List.getLast_mem hdne
    · exact (List.dropLast_sublist _).subset he2
  · have hlen : i + 1 = l.length := by omega
    rw [swapRemove_last l i hlen]
    intro e he
    have : (l.take i).length ≤ i := by simp
    rw [List.drop_eq_nil_of_le this] at he
    simp at he

theorem removeTaintedFrom_perm :
    ∀ (n : Nat) (l : List SearchVecEntry), n ≤ l.length →
      (∀ e ∈ l.drop n, e.value_tainted = false) →
      List.Perm (removeTaintedFrom l n) (l.filter (fun e => !e.value_tainted)) := by
  intro n
  induction n with
  | zero =>
    intro l _ hsuffix
    simp only [List.drop_zero] at hsuffix
    rw [removeTaintedFrom, List.filter_eq_self.mpr (by intro e he; simp [hsuffix e he])]
  | succ n ih =>
    intro l hlen hsuffix
    have hn : n < l.length := by omega
    have hget : l.getD n default = l[n] := List.getD_eq_getElem l default hn
    have hdropn : l.drop n = l[n] :: l.drop (n + 1) := (List.getElem_cons_drop l n hn).symm
    rw [show removeTaintedFrom l (n + 1) =
      removeTaintedFrom (if (l.getD n default).value_tainted then swapRemove l n else l) n
      from rfl]
    by_cases hg : (l.getD n default).value_tainted
    · rw [if_pos hg]
      have hperm1 : List.Perm (swapRemove l n) (l.eraseIdx n) := swapRemove_perm l n hn
      have hlen' : n ≤ (swapRemove l n).length := by
        rw [swapRemove_length l n hn]; omega
      have hsuffix' : ∀ e ∈ (swapRemove l n).drop n, e.value_tainted = false := by
        intro e he
        exact hsuffix e (swapRemove_drop_subset l n hn e he)
      have hrec := ih (swapRemove l n) hlen' hsuffix'
      have hfiltereq :
          List.Perm ((swapRemove l n).filter (fun e => !e.value_tainted))
            (l.filter (fun e => !e.value_tainted)) := by
        have h2 : List.Perm ((swapRemove l n).filter (fun e => !e.value_tainted))
            ((l.eraseIdx n).filter (fun e => !e.value_tainted)) :=
          hperm1.filter _
        have h3 : (l.eraseIdx n).filter (fun e => !e.value_tainted) =
            l.filter (fun e => !e.value_tainted) := by
          rw [List.eraseIdx_eq_take_drop_succ]
          conv_rhs => rw [← List.take_append_drop n l]
          rw [List.filter_append, List.filter_append, hdropn, List.filter_cons]
          rw [hget] at hg
          simp [hg]
        rw [h3] at h2
        exact h2
      exact hrec.trans hfiltereq
    · rw [if_neg hg]
      apply ih l (by omega)
      intro e he
      rw [hdropn] at he
      rcases List.mem_cons.mp he with rfl | he2
      · rw [hget] at hg
        simpa using hg
      · exact hsuffix e he2

/-- `into_without_unmatched` keeps exactly the untainted entries (as a
permutation of the filtered list). -/
theorem intoWithout_perm (sv : SearchVec) :
    List.Perm sv.into_without_unmatched.entries
      (sv.entries.filter (fun e => !e.value_tainted)) := by
  apply removeTaintedFrom_perm sv.entries.length sv.entries (Nat.le_refl _)
  intro e he
  rw [List.drop_length] at he
  simp at he

theorem intoWithout_untainted (sv : SearchVec) :
    ∀ e ∈ sv.into_without_unmatched.entries, e.value_tainted = false := by
  intro e he
  have := (intoWithout_perm sv).mem_iff.mp he
  have := List.of_mem_filter this
  simpa using this

theorem intoWithout_length (sv : SearchVec) :
    sv.into_without_unmatched.entries.length =
      sv.entries.countP (fun e => !e.value_tainted) := by
  rw [(intoWithout_perm sv).length_eq, ← List.countP_eq_length_filter]

/-- Invariant holding at the top of every iteration of `find_all`'s loop:
every seeded entry is untainted. -/
def VInv (sv : SearchVec) : Prop := ∀ e ∈ sv.entries, e.value_tainted = false

theorem vecFetch_of_untainted (sv : SearchVec) (count : Nat) (hinv : VInv sv) :
    sv.fetch_unmatched_items count = (sv.entries.map SearchVecEntry.value).take count := by
  rw [SearchVec.fetch_unmatched_items, List.filter_eq_self.mpr (fun e he => by simp [hinv e he])]

theorem vecLoop_decrease (sv : SearchVec) (tol : ScaledTolerance)
    (hinv : VInv sv) (h0 : ¬sv.len = 0) :
    (sv.search_deterministic (sv.fetch_unmatched_items 5000) tol
      true).2.into_without_unmatched.entries.length < sv.entries.length := by
  rcases hsv : sv.entries with _ | ⟨e0, rest⟩
  · exact absurd (by simp [SearchVec.len, hsv]) h0
  have hfetch : sv.fetch_unmatched_items 5000 =
      e0.value :: (rest.map SearchVecEntry.value).take 4999 := by
    rw [vecFetch_of_untainted sv 5000 hinv, hsv]
    rfl
  set qs := sv.fetch_unmatched_items 5000 with hqs
  have hentries : (sv.search_deterministic qs tol true).2.entries =
      sv.entries.map (vecStepMany qs tol true) := vecSearchDet_entries qs sv tol true
  have he0 : e0.value_tainted = false := hinv e0 (by rw [hsv]; exact List.mem_cons_self e0 rest)
  have hhit : vecHit e0.value tol e0 = true := by
    simp [vecHit, distance_self, he0]
  have hstep : (vecStep e0.value tol true e0).value_tainted = true := by
    simp [vecStep, hhit]
  have hhead : (vecStepMany qs tol true e0).value_tainted = true := by
    rw [hfetch]
    simp only [vecStepMany, List.foldl_cons]
    exact vecStepMany_taint_mono _ tol true _ hstep
  rw [intoWithout_length, hentries, hsv]
  have hcount : rest.countP ((fun e => !e.value_tainted) ∘ vecStepMany qs tol true) ≤
      rest.length := List.countP_le_length _
  simp [hhead]
  omega

/-- The body of `VideoDupFinder::find_all` with the linear-scan backend in
deterministic mode (`vec_search = true`, `deterministic_search = true`):
loop while the backend is non-empty, draw a batch of up to 5000 unmatched
items, search with `consume = true`, keep result lists of length > 1 as
groups of source paths, and shrink the backend.  The invariant argument
(everything untainted at loop top) is established at the only call site
and is what makes the loop terminate. -/
def findAllLoopVec (sv : SearchVec) (tol : ScaledTolerance) (hinv : VInv sv) :
    List MatchGroup :=
  if h0 : sv.len = 0 then []
  else
    let items := sv.fetch_unmatched_items 5000
    let r := sv.search_deterministic items tol true
    let groups := (r.1.filter fun g => g.length > 1).map
      fun g => MatchGroup.new (g.map TemporalHash.src_path)
    groups ++ findAllLoopVec r.2.into_without_unmatched tol
      (fun e he => intoWithout_untainted _ e he)
termination_by sv.entries.length
decreasing_by exact vecLoop_decrease sv tol hinv h0

theorem vecSeedAll (hashes : List TemporalHash) :
    ∀ (sv : SearchVec),
      (hashes.foldl SearchVec.seed sv).entries =
        sv.entries ++ hashes.map (fun h => ⟨false, h⟩) := by
  induction hashes with
  | nil => intro sv; simp
  | cons h rest ih =>
    intro sv
    simp only [List.foldl_cons, ih, SearchVec.seed, List.map_cons]
    simp

/-- `VideoDupFinder::find_all` with `vec_search = true` and
`deterministic_search = true`.  The source converts the user tolerance to
a `ScaledTolerance` with the same value at every search call; the loop is
parameterized by that already-scaled tolerance. -/
def find_all_vec_deterministic (hashes : List TemporalHash) (tol : ScaledTolerance) :
    List MatchGroup :=
  findAllLoopVec (hashes.foldl SearchVec.seed SearchVec.new) tol
    (by
      intro e he
      rw [vecSeedAll hashes SearchVec.new] at he
      simp only [SearchVec.new, List.nil_append] at he
      rcases List.mem_map.mp he with ⟨h, _, rfl⟩
      rfl)

mutual

/-- All values stored in a tree, in preorder (root first, then children in
map order), regardless of taint. -/
def BkTree.values : BkTree → List TemporalHash
  | .mk v _ ch =>
    (match v with | some x => [x] | none => []) ++ BkChildren.valuesList ch

/-- All values stored under a children map. -/
def BkChildren.valuesList : BkChildren → List TemporalHash
  | .nil => []
  | .cons _ c rest => c.values ++ BkChildren.valuesList rest

end

mutual

/-- Every node of the tree is untainted. -/
def BkTree.allUnt : BkTree → Prop
  | .mk _ t ch => t = false ∧ BkChildren.allUntCh ch

/-- Every node under a children map is untainted. -/
def BkChildren.allUntCh : BkChildren → Prop
  | .nil => True
  | .cons _ c rest => c.allUnt ∧ BkChildren.allUntCh rest

end

mutual

theorem bk_unmatched_sublist (t : BkTree) : t.into_unmatched_items.Sublist t.values := by
  cases t with
  | mk v tainted ch =>
    apply List.Sublist.append _ (bkCh_unmatched_sublist ch)
    cases v with
    | none => simp
    | some x =>
      cases tainted with
      | false => simp
      | true => simp

theorem bkCh_unmatched_sublist (ch : BkChildren) :
    (BkChildren.unmatchedItems ch).Sublist (BkChildren.valuesList ch) := by
  cases ch with
  | nil => simp [BkChildren.unmatchedItems, BkChildren.valuesList]
  | cons k c rest =>
    exact List.Sublist.append (bk_unmatched_sublist c) (bkCh_unmatched_sublist rest)

end

mutual

theorem bk_search_values (t : BkTree) (v : TemporalHash) (tol : ScaledTolerance) (c : Bool) :
    (t.search_inner v tol c).2.values = t.values := by
  cases t with
  | mk val tainted ch =>
    cases val with
    | none => rfl
    | some x =>
      show ((BkTree.mk (some x) _ (BkChildren.searchRange ch v tol c _ _ _ _).2).values) = _
      rw [BkTree.values, BkTree.values]
      rw [bkCh_search_values ch v tol c]

theorem bkCh_search_values (ch : BkChildren) (v : TemporalHash) (tol : ScaledTolerance)
    (c : Bool) :
    ∀ (smin smax tmin tmax : Nat),
      (BkChildren.searchRange ch v tol c smin smax tmin tmax).2.valuesList =
        ch.valuesList := by
  cases ch with
  | nil => intro smin smax tmin tmax; rfl
  | cons k child rest =>
    intro smin smax tmin tmax
    show (BkChildren.cons k _ _).valuesList = _
    rw [BkChildren.valuesList, BkChildren.valuesList]
    by_cases hk : (smin ≤ k && k ≤ smax && (tmin ≤ k && k ≤ tmax)) = true
    · rw [bkCh_search_values rest v tol c smin smax tmin tmax]
      congr 1
      simp only [BkChildren.searchRange, hk, if_true]
      exact bk_search_values child v tol c
    · rw [bkCh_search_values rest v tol c smin smax tmin tmax]
      congr 1
      simp only [BkChildren.searchRange, hk]
      simp

end

theorem bk_search_inner_rootvalue (t : BkTree) (v : TemporalHash) (tol : ScaledTolerance)
    (c : Bool) : (t.search_inner v tol c).2.value = t.value := by
  cases t with
  | mk val tainted ch => cases val with
    | none => rfl
    | some x => rfl

theorem bk_search_one_rootvalue (t : BkTree) (v : TemporalHash) (tol : ScaledTolerance)
    (c : Bool) : (t.search_one v tol c).2.value = t.value := by
  rw [BkTree.search_one]
  show (t.search_inner v tol c).2.value = t.value
  exact bk_search_inner_rootvalue t v tol c

theorem bk_search_one_tainted (t : BkTree) (v : TemporalHash) (tol : ScaledTolerance)
    (c : Bool) : (t.search_one v tol c).2.value_tainted = true := rfl

theorem bk_search_one_values (t : BkTree) (v : TemporalHash) (tol : ScaledTolerance)
    (c : Bool) : (t.search_one v tol c).2.values = t.values := by
  rw [BkTree.search_one]
  have h := bk_search_values t v tol c
  rcases hs : (t.search_inner v tol c).2 with ⟨val, tainted, ch⟩
  rw [hs] at h
  rw [← h]
  rfl

theorem bkSearchDet_values (qs : List TemporalHash) :
    ∀ (t : BkTree) (tol : ScaledTolerance) (c : Bool),
      (t.search_deterministic qs tol c).2.values = t.values := by
  induction qs with
  | nil => intro t tol c; rfl
  | cons q rest ih =>
    intro t tol c
    show ((t.search_one q tol c).2.search_deterministic rest tol c).2.values = t.values
    rw [ih, bk_search_one_values]

theorem bkSearchDet_rootvalue (qs : List TemporalHash) :
    ∀ (t : BkTree) (tol : ScaledTolerance) (c : Bool),
      (t.search_deterministic qs tol c).2.value = t.value := by
  induction qs with
  | nil => intro t tol c; rfl
  | cons q rest ih =>
    intro t tol c
    show ((t.search_one q tol c).2.search_deterministic rest tol c).2.value = t.value
    rw [ih, bk_search_one_rootvalue]

theorem bkSearchDet_root_tainted (qs : List TemporalHash) :
    ∀ (t : BkTree) (tol : ScaledTolerance) (c : Bool), qs ≠ [] →
      (t.search_deterministic qs tol c).2.value_tainted = true := by
  induction qs with
  | nil => intro t tol c h; exact absurd rfl h
  | cons q rest ih =>
    intro t tol c _
    show ((t.search_one q tol c).2.search_deterministic rest tol c).2.value_tainted = true
    rcases rest with _ | ⟨q2, rest2⟩
    · exact bk_search_one_tainted t q tol c
    · exact ih _ tol c (by simp)

/-- An entry of the processing cache: the mtime observed at insert time
(seconds since the UNIX epoch, as produced by `as_secs`) and the cached
value. -/
structure MtimeCacheEntry (T : Type) where
  cache_mtime : Nat
  value : T

/-- State of `ProcessingFsCache`: the in-memory map (association list,
most recent insert first), the filesystem view (`None` when `fs::metadata`
fails, e.g. the file does not exist) giving each path's mtime in whole
seconds since the epoch, and the processing function.  Save batching and
the on-disk file are not touched by the claims and are not modelled. -/
structure ProcessingFsCache (T : Type) where
  map : List (String × MtimeCacheEntry T)
  fs_mtime_secs : String → Option Nat
  processing_fn : String → T

/-- Map lookup of `BaseFsCache::get` (`Err` on a missing key is modelled
as `none`). -/
def cacheLookup {T : Type} (m : List (String × MtimeCacheEntry T)) (key : String) :
    Option (MtimeCacheEntry T) :=
  (m.find? (fun kv => kv.1 == key)).map (fun kv => kv.2)

/-- `BaseFsCache::insert`: replace any existing entry for the key. -/
def cacheInsert {T : Type} (m : List (String × MtimeCacheEntry T)) (key : String)
    (e : MtimeCacheEntry T) : List (String × MtimeCacheEntry T) :=
  (key, e) :: m.filter (fun kv => !(kv.1 == key))

/-- `ProcessingFsCache::contains_key`. -/
def ProcessingFsCache.contains_key {T : Type} (c : ProcessingFsCache T) (key : String) : Bool :=
  (cacheLookup c.map key).isSome

/-- `ProcessingFsCache::get`. -/
def ProcessingFsCache.get {T : Type} (c : ProcessingFsCache T) (key : String) : Option T :=
  (cacheLookup c.map key).map (fun e => e.value)

/-- `ProcessingFsCache::val_is_stale`: compare the cached mtime and the
filesystem mtime in whole seconds since the epoch; stale iff the absolute
difference exceeds `DURATION_TOLERANCE_SECS = 2`. -/
def ProcessingFsCache.val_is_stale {T : Type} (c : ProcessingFsCache T) (key : String) :
    Option (Bool × Nat) := do
  let entry ← cacheLookup c.map key
  let fs_mtime ← c.fs_mtime_secs key
  pure (((entry.cache_mtime : Int) - (fs_mtime : Int)).natAbs > 2, fs_mtime)

/-- `ProcessingFsCache::force_insert`: run the processing function and
insert the result with the given mtime, then read it back. -/
def ProcessingFsCache.force_insert {T : Type} (c : ProcessingFsCache T) (key : String)
    (mtime : Nat) : Option T × ProcessingFsCache T :=
  let value := c.processing_fn key
  let cache_entry : MtimeCacheEntry T := { cache_mtime := mtime, value := value }
  let c' := { c with map := cacheInsert c.map key cache_entry }
  (c'.get key, c')

/-- `ProcessingFsCache::get_insert`: recompute when the key is absent or
its entry is stale, then read the entry back.  `none` models the `Err`
paths (the staleness check or the mtime probe failing). -/
def ProcessingFsCache.get_insert {T : Type} (c : ProcessingFsCache T) (key : String) :
    Option (T × ProcessingFsCache T) :=
  let key_present := c.contains_key key
  match
    (if key_present then
      match c.val_is_stale key with
      | none => none
      | some (key_stale, fs_mtime) => some (some key_stale, some fs_mtime)
    else some (none, none) :
      Option (Option Bool × Option Nat))
  with
  | none => none
  | some (key_stale, fs_mtime) =>
    if !key_present || key_stale == some true then
      match (match fs_mtime with
        | some m => some m
        | none => c.fs_mtime_secs key) with
      | none => none
      | some fs_mtime =>
        let c' := (c.force_insert key fs_mtime).2
        (c'.get key).map (fun v => (v, c'))
    else
      (c.get key).map (fun v => (v, c))

mutual

theorem bk_seed_values_length (t : BkTree) (e : TemporalHash) :
    (t.seed e).values.length = t.values.length + 1 := by
  cases t with
  | mk val tainted ch =>
    cases val with
    | none => simp [BkTree.seed, BkTree.values]
    | some x =>
      show (BkTree.mk (some x) tainted
        (BkChildren.seedAt ch ((x.distance e).u32_value) e)).values.length = _
      rw [BkTree.values, BkTree.values]
      simp only [List.length_append]
      rw [bkCh_seedAt_values_length ch ((x.distance e).u32_value) e]
      omega

theorem bkCh_seedAt_values_length (ch : BkChildren) (d : Nat) (e : TemporalHash) :
    (BkChildren.seedAt ch d e).valuesList.length = ch.valuesList.length + 1 := by
  cases ch with
  | nil =>
    simp [BkChildren.seedAt, BkChildren.valuesList, BkTree.values]
  | cons k c rest =>
    rw [BkChildren.seedAt]
    by_cases hk : k = d
    · rw [if_pos hk]
      rw [BkChildren.valuesList, BkChildren.valuesList]
      simp only [List.length_append]
      rw [bk_seed_values_length c e]
      omega
    · rw [if_neg hk]
      rw [BkChildren.valuesList, BkChildren.valuesList]
      simp only [List.length_append]
      rw [bkCh_seedAt_values_length rest d e]
      omega

end

mutual

theorem bk_seed_allUnt (t : BkTree) (e : TemporalHash) (h : t.allUnt) :
    (t.seed e).allUnt := by
  cases t with
  | mk val tainted ch =>
    rcases h with ⟨ht, hch⟩
    cases val with
    | none => exact ⟨ht, hch⟩
    | some x =>
      exact ⟨ht, bkCh_seedAt_allUnt ch ((x.distance e).u32_value) e hch⟩

theorem bkCh_seedAt_allUnt (ch : BkChildren) (d : Nat) (e : TemporalHash)
    (h : ch.allUntCh) : (BkChildren.seedAt ch d e).allUntCh := by
  cases ch with
  | nil => exact ⟨⟨rfl, trivial⟩, trivial⟩
  | cons k c rest =>
    rcases h with ⟨hc, hrest⟩
    rw [BkChildren.seedAt]
    by_cases hk : k = d
    · rw [if_pos hk]
      exact ⟨bk_seed_allUnt c e hc, hrest⟩
    · rw [if_neg hk]
      exact ⟨hc, bkCh_seedAt_allUnt rest d e hrest⟩

end

theorem bk_seed_rootvalue_isSome (t : BkTree) (e : TemporalHash) :
    (t.seed e).value.isSome := by
  cases t with
  | mk val tainted ch =>
    cases val with
    | none => rfl
    | some x => rfl

mutual

theorem bk_len_eq_values (t : BkTree) (h : t.allUnt) : t.len = t.values.length := by
  cases t with
  | mk val tainted ch =>
    rcases h with ⟨ht, hch⟩
    subst ht
    cases val with
    | none =>
      simp [BkTree.len, BkTree.values, bkCh_lenSum_eq_values ch hch]
    | some x =>
      simp [BkTree.len, BkTree.values, bkCh_lenSum_eq_values ch hch]
      omega

theorem bkCh_lenSum_eq_values (ch : BkChildren) (h : ch.allUntCh) :
    BkChildren.lenSum ch = ch.valuesList.length := by
  cases ch with
  | nil => rfl
  | cons k c rest =>
    rcases h with ⟨hc, hrest⟩
    rw [BkChildren.lenSum, BkChildren.valuesList]
    simp only [List.length_append]
    rw [bk_len_eq_values c hc, bkCh_lenSum_eq_values rest hrest]

end

mutual

theorem bk_unmatched_eq_values (t : BkTree) (h : t.allUnt) :
    t.into_unmatched_items = t.values := by
  cases t with
  | mk val tainted ch =>
    rcases h with ⟨ht, hch⟩
    subst ht
    cases val with
    | none =>
      rw [BkTree.into_unmatched_items, BkTree.values, bkCh_unmatched_eq_values ch hch]
    | some x =>
      rw [BkTree.into_unmatched_items, BkTree.values, bkCh_unmatched_eq_values ch hch]
      simp

theorem bkCh_unmatched_eq_values (ch : BkChildren) (h : ch.allUntCh) :
    BkChildren.unmatchedItems ch = ch.valuesList := by
  cases ch with
  | nil => rfl
  | cons k c rest =>
    rcases h with ⟨hc, hrest⟩
    rw [BkChildren.unmatchedItems, BkChildren.valuesList,
      bk_unmatched_eq_values c hc, bkCh_unmatched_eq_values rest hrest]

end

theorem bk_fromList_values_length (l : List TemporalHash) :
    ∀ (t : BkTree), (l.foldl BkTree.seed t).values.length = t.values.length + l.length := by
  induction l with
  | nil => intro t; simp
  | cons e rest ih =>
    intro t
    simp only [List.foldl_cons, ih, bk_seed_values_length, List.length_cons]
    omega

theorem bk_fromList_allUnt (l : List TemporalHash) :
    ∀ (t : BkTree), t.allUnt → (l.foldl BkTree.seed t).allUnt := by
  induction l with
  | nil => intro t h; exact h
  | cons e rest ih =>
    intro t h
    exact ih _ (bk_seed_allUnt t e h)

theorem bk_foldl_seed_isSome (l : List TemporalHash) :
    ∀ (t : BkTree), t.value.isSome = true → (l.foldl BkTree.seed t).value.isSome = true := by
  induction l with
  | nil => intro t ht; exact ht
  | cons a as ih =>
    intro t _
    exact ih _ (bk_seed_rootvalue_isSome t a)

theorem bk_fromList_rootInv (l : List TemporalHash) :
    ((BkTree.fromList l).value = none → (BkTree.fromList l).children = .nil) := by
  cases l with
  | nil => intro _; rfl
  | cons e rest =>
    intro hnone
    exfalso
    have hsome : (rest.foldl BkTree.seed (BkTree.new.seed e)).value.isSome = true :=
      bk_foldl_seed_isSome rest _ (bk_seed_rootvalue_isSome BkTree.new e)
    rw [BkTree.fromList] at hnone
    simp only [List.foldl_cons] at hnone
    rw [hnone] at hsome
    simp at hsome

theorem bk_allUnt_root_untainted (t : BkTree) (h : t.allUnt) : t.value_tainted = false := by
  cases t with
  | mk val tainted ch => exact h.1

theorem bkCh_fetchFrom_early : ∀ (ch : BkChildren) (count : Nat) (ret : List TemporalHash),
    (BkChildren.fetchFrom ch count ret).2 = true →
    count ≤ (BkChildren.fetchFrom ch count ret).1.length
  | .nil, count, ret => by
    intro h
    simp [BkChildren.fetchFrom] at h
  | .cons k c rest, count, ret => by
    intro h
    rw [BkChildren.fetchFrom] at h ⊢
    by_cases hlt : ret.length < count
    · rw [if_pos hlt] at h ⊢
      exact bkCh_fetchFrom_early rest count _ h
    · rw [if_neg hlt]
      show count ≤ ret.length
      omega

mutual

theorem bk_fetchInner_grows (t : BkTree) (count : Nat) (ret : List TemporalHash) :
    ∃ s, (t.fetchInner count ret).1 = ret ++ s := by
  cases t with
  | mk val tainted ch =>
    rcases bkCh_fetchFrom_grows ch count ret with ⟨s, hs⟩
    show ∃ s,
      (if (BkChildren.fetchFrom ch count ret).2 then BkChildren.fetchFrom ch count ret
       else if (BkChildren.fetchFrom ch count ret).1.length < count then
        ((BkChildren.fetchFrom ch count ret).1 ++ (match val with
          | some x => if tainted then [] else [x]
          | none => []), false)
       else ((BkChildren.fetchFrom ch count ret).1, false)).1 = ret ++ s
    by_cases h2 : (BkChildren.fetchFrom ch count ret).2
    · rw [if_pos h2]
      exact ⟨s, hs⟩
    · rw [if_neg h2]
      by_cases hlt : (BkChildren.fetchFrom ch count ret).1.length < count
      · rw [if_pos hlt]
        refine ⟨s ++ (match val with
          | some x => if tainted then [] else [x]
          | none => []), ?_⟩
        simp only [hs]
        rw [List.append_assoc]
      · rw [if_neg hlt]
        exact ⟨s, hs⟩

theorem bkCh_fetchFrom_grows (ch : BkChildren) (count : Nat) (ret : List TemporalHash) :
    ∃ s, (BkChildren.fetchFrom ch count ret).1 = ret ++ s := by
  cases ch with
  | nil => exact ⟨[], by simp [BkChildren.fetchFrom]⟩
  | cons k c rest =>
    rw [BkChildren.fetchFrom]
    by_cases hlt : ret.length < count
    · rw [if_pos hlt]
      rcases bk_fetchInner_grows c count ret with ⟨s1, hs1⟩
      rcases bkCh_fetchFrom_grows rest count (c.fetchInner count ret).1 with ⟨s2, hs2⟩
      refine ⟨s1 ++ s2, ?_⟩
      rw [hs2, hs1, List.append_assoc]
    · rw [if_neg hlt]
      exact ⟨[], by simp⟩

end

theorem bk_fetch_nonempty (t : BkTree) (count : Nat) (hc : 1 ≤ count) (v : TemporalHash)
    (hval : t.value = some v) (htaint : t.value_tainted = false) :
    t.fetch_unmatched_items count ≠ [] := by
  cases t with
  | mk val tainted ch =>
    cases hval
    cases htaint
    rw [BkTree.fetch_unmatched_items]
    show (if (BkChildren.fetchFrom ch count []).2 then BkChildren.fetchFrom ch count []
       else if (BkChildren.fetchFrom ch count []).1.length < count then
        ((BkChildren.fetchFrom ch count []).1 ++ [v], false)
       else ((BkChildren.fetchFrom ch count []).1, false)).1 ≠ []
    by_cases h2 : (BkChildren.fetchFrom ch count []).2
    · rw [if_pos h2]
      have := bkCh_fetchFrom_early ch count [] h2
      intro hnil
      rw [hnil] at this
      simp at this
      omega
    · rw [if_neg h2]
      by_cases hlt : (BkChildren.fetchFrom ch count []).1.length < count
      · rw [if_pos hlt]
        simp
      · rw [if_neg hlt]
        intro hnil
        rw [hnil] at hlt
        simp at hlt
        omega

/-- Invariant at the top of every iteration of `find_all`'s loop with the
BK-tree backend: all nodes untainted, and an empty root has no children. -/
def BInv (t : BkTree) : Prop := t.allUnt ∧ (t.value = none → t.children = .nil)

theorem bk_new_allUnt : BkTree.new.allUnt := ⟨rfl, trivial⟩

theorem bk_fromList_BInv (l : List TemporalHash) : BInv (BkTree.fromList l) :=
  ⟨bk_fromList_allUnt l BkTree.new bk_new_allUnt, bk_fromList_rootInv l⟩

theorem bkLoop_decrease (t : BkTree) (tol : ScaledTolerance) (hinv : BInv t)
    (h0 : ¬t.len = 0) :
    ((t.search_deterministic (t.fetch_unmatched_items 5000) tol
      true).2).into_without_unmatched.values.length < t.values.length := by
  rcases hinv with ⟨hunt, hroot⟩
  have hlen : t.len = t.values.length := bk_len_eq_values t hunt
  have hvalsne : t.values.length ≠ 0 := by omega
  rcases hval : t.value with _ | v
  · exfalso
    have hch := hroot hval
    cases t with
    | mk val tainted ch =>
      cases hval
      rw [BkTree.children] at hch
      subst hch
      simp [BkTree.values, BkChildren.valuesList] at hvalsne
  · have hfetch : t.fetch_unmatched_items 5000 ≠ [] :=
      bk_fetch_nonempty t 5000 (by omega) v hval (bk_allUnt_root_untainted t hunt)
    set st := (t.search_deterministic (t.fetch_unmatched_items 5000) tol true).2 with hst
    have hstval : st.value = some v := by
      rw [hst, bkSearchDet_rootvalue]; exact hval
    have hsttaint : st.value_tainted = true := by
      rw [hst]; exact bkSearchDet_root_tainted _ t tol true hfetch
    have hstvals : st.values = t.values := by
      rw [hst]; exact bkSearchDet_values _ t tol true
    have hunm : st.into_unmatched_items.length + 1 ≤ t.values.length := by
      rcases hsteq : st with ⟨val', taint', ch'⟩
      rw [hsteq] at hstval hsttaint hstvals
      rw [BkTree.value] at hstval
      rw [BkTree.value_tainted] at hsttaint
      subst hstval
      subst hsttaint
      rw [BkTree.into_unmatched_items]
      have hsub := (bkCh_unmatched_sublist ch').length_le
      rw [← hstvals, BkTree.values]
      simp only [List.nil_append, List.length_append, List.length_cons]
      simp
      omega
    have hgoal : st.into_without_unmatched.values.length =
        st.into_unmatched_items.length := by
      show (st.into_unmatched_items.foldl BkTree.seed BkTree.new).values.length = _
      rw [bk_fromList_values_length]
      simp [BkTree.new, BkTree.values, BkChildren.valuesList]
    rw [hgoal]
    omega

/-- The body of `VideoDupFinder::find_all` with the BK-tree backend in
deterministic mode (`vec_search = false`, `deterministic_search = true`).
Same loop as the linear backend, dispatched through `SearchStructEnum`. -/
def findAllLoopBk (t : BkTree) (tol : ScaledTolerance) (hinv : BInv t) :
    List MatchGroup :=
  if h0 : t.len = 0 then []
  else
    let items := t.fetch_unmatched_items 5000
    let r := t.search_deterministic items tol true
    let groups := (r.1.filter fun g => g.length > 1).map
      fun g => MatchGroup.new (g.map TemporalHash.src_path)
    groups ++ findAllLoopBk r.2.into_without_unmatched tol
      (bk_fromList_BInv r.2.into_unmatched_items)
termination_by t.values.length
decreasing_by exact bkLoop_decrease t tol hinv h0

/-- `VideoDupFinder::find_all` with `vec_search = false` and
`deterministic_search = true`. -/
def find_all_bk_deterministic (hashes : List TemporalHash) (tol : ScaledTolerance) :
    List MatchGroup :=
  findAllLoopBk (BkTree.fromList hashes) tol (bk_fromList_BInv hashes)

/-- `VideoDupFinder::find_all` in deterministic mode, dispatching on
`vec_search` exactly as `SearchStructEnum::new` does. -/
def find_all_deterministic (hashes : List TemporalHash) (tol : ScaledTolerance)
    (vec_search : Bool) : List MatchGroup :=
  if vec_search then find_all_vec_deterministic hashes tol
  else find_all_bk_deterministic hashes tol

/-- The values of the untainted entries of the linear backend. -/
def untaintedValuesV (sv : SearchVec) : List TemporalHash :=
  (sv.entries.filter (fun e => !e.value_tainted)).map SearchVecEntry.value

/-- The paths still available for matching in the linear backend. -/
def availV (sv : SearchVec) : List String := pathsOf (untaintedValuesV sv)

/-- All seeded paths are pairwise distinct. -/
def pathsVNodup (sv : SearchVec) : Prop :=
  (sv.entries.map (fun e => e.value.src_path)).Nodup

theorem vecHit_untainted (q : TemporalHash) (tol : ScaledTolerance) (e : SearchVecEntry)
    (h : vecHit q tol e = true) : e.value_tainted = false := by
  simp only [vecHit, Bool.and_eq_true, Bool.not_eq_eq_eq_not, Bool.not_true] at h
  exact h.1.2

theorem vecStep_untainted_iff (q : TemporalHash) (tol : ScaledTolerance)
    (e : SearchVecEntry) :
    (vecStep q tol true e).value_tainted = false ↔
      (e.value_tainted = false ∧ vecHit q tol e = false) := by
  simp [vecStep]

theorem avail_mem_iff (sv : SearchVec) (p : String) :
    p ∈ availV sv ↔ ∃ e ∈ sv.entries, e.value_tainted = false ∧ e.value.src_path = p := by
  simp only [availV, untaintedValuesV, pathsOf, List.map_map, List.mem_map,
    List.mem_filter, Function.comp_def]
  constructor
  · rintro ⟨e, ⟨he, ht⟩, rfl⟩
    exact ⟨e, he, by simpa using ht, rfl⟩
  · rintro ⟨e, he, ht, rfl⟩
    exact ⟨e, ⟨he, by simp [ht]⟩, rfl⟩

theorem vecSearchOne_avail_subset (sv : SearchVec) (q : TemporalHash)
    (tol : ScaledTolerance) (p : String)
    (h : p ∈ availV (sv.search_one q tol true).2) : p ∈ availV sv := by
  rw [vecSearchOne_eq] at h
  rw [avail_mem_iff] at h ⊢
  rcases h with ⟨e', he', ht', hp⟩
  simp only [List.mem_map] at he'
  rcases he' with ⟨e, he, rfl⟩
  rw [vecStep_untainted_iff] at ht'
  exact ⟨e, he, ht'.1, hp⟩

theorem vecSearchOne_emitted_subset (sv : SearchVec) (q : TemporalHash)
    (tol : ScaledTolerance) (c : Bool) (p : String)
    (h : p ∈ pathsOf (sv.search_one q tol c).1) : p ∈ availV sv := by
  rw [vecSearchOne_eq] at h
  simp only [pathsOf, List.map_map, List.mem_map, List.mem_filter,
    Function.comp_def] at h
  rcases h with ⟨e, ⟨he, hhit⟩, rfl⟩
  rw [avail_mem_iff]
  exact ⟨e, he, vecHit_untainted q tol e hhit, rfl⟩

theorem vecSearchOne_emitted_not_avail (sv : SearchVec) (q : TemporalHash)
    (tol : ScaledTolerance) (hnd : pathsVNodup sv) (p : String)
    (h : p ∈ pathsOf (sv.search_one q tol true).1) :
    p ∉ availV (sv.search_one q tol true).2 := by
  intro hav
  rw [vecSearchOne_eq] at h hav
  simp only [pathsOf, List.map_map, List.mem_map, List.mem_filter,
    Function.comp_def] at h
  rcases h with ⟨e, ⟨he, hhit⟩, hp⟩
  rw [avail_mem_iff] at hav
  rcases hav with ⟨e2', he2', ht2, hp2⟩
  simp only [List.mem_map] at he2'
  rcases he2' with ⟨e2, he2, rfl⟩
  rw [vecStep_untainted_iff] at ht2
  rw [vecStep_value] at hp2
  have hne : e ≠ e2 := by
    intro heq
    rw [heq] at hhit
    rw [ht2.2] at hhit
    exact Bool.false_ne_true hhit
  exact hne (List.inj_on_of_nodup_map hnd he he2 (by rw [hp, hp2]))

theorem vecSearchOne_pathsNodup (sv : SearchVec) (q : TemporalHash)
    (tol : ScaledTolerance) (c : Bool) (hnd : pathsVNodup sv) :
    pathsVNodup (sv.search_one q tol c).2 := by
  rw [vecSearchOne_eq]
  show ((sv.entries.map (vecStep q tol c)).map (fun e => e.value.src_path)).Nodup
  rw [List.map_map]
  have : ((fun e => e.value.src_path) ∘ vecStep q tol c) =
      fun (e : SearchVecEntry) => e.value.src_path := by
    funext e
    simp [Function.comp_def, vecStep_value]
  rw [this]
  exact hnd

theorem vecSearchDet_count (qs : List TemporalHash) :
    ∀ (sv : SearchVec) (tol : ScaledTolerance), pathsVNodup sv → ∀ (p : String),
      ((sv.search_deterministic qs tol true).1.countP (fun g => decide (p ∈ pathsOf g)))
          + (if p ∈ availV (sv.search_deterministic qs tol true).2 then 1 else 0)
        ≤ (if p ∈ availV sv then 1 else 0) := by
  induction qs with
  | nil =>
    intro sv tol _ p
    simp [SearchVec.search_deterministic]
  | cons q rest ih =>
    intro sv tol hnd p
    have hu1 : (sv.search_deterministic (q :: rest) tol true).1 =
        (if (sv.search_one q tol true).1.isEmpty then [] else [(sv.search_one q tol true).1])
          ++ ((sv.search_one q tol true).2.search_deterministic rest tol true).1 := rfl
    have hu2 : (sv.search_deterministic (q :: rest) tol true).2 =
        ((sv.search_one q tol true).2.search_deterministic rest tol true).2 := rfl
    rw [hu1, hu2, List.countP_append]
    have hnd2 : pathsVNodup (sv.search_one q tol true).2 :=
      vecSearchOne_pathsNodup sv q tol true hnd
    have hih := ih (sv.search_one q tol true).2 tol hnd2 p
    by_cases hmem : p ∈ pathsOf (sv.search_one q tol true).1
    · have hav : p ∈ availV sv := vecSearchOne_emitted_subset sv q tol true p hmem
      have hnav : p ∉ availV (sv.search_one q tol true).2 :=
        vecSearchOne_emitted_not_avail sv q tol hnd p hmem
      have hne : ¬(sv.search_one q tol true).1.isEmpty := by
        rcases List.mem_map.mp hmem with ⟨x, hx, _⟩
        intro hempty
        rw [List.isEmpty_iff.mp hempty] at hx
        simp at hx
      rw [if_neg hne, if_pos hav]
      have h1 : ([(sv.search_one q tol true).1].countP (fun g => decide (p ∈ pathsOf g))) = 1 := by
        simp [hmem]
      rw [h1]
      rw [if_neg hnav] at hih
      omega
    · have hbound : (if (sv.search_one q tol true).1.isEmpty then ([] : List (List TemporalHash))
          else [(sv.search_one q tol true).1]).countP (fun g => decide (p ∈ pathsOf g)) = 0 := by
        by_cases hempty : (sv.search_one q tol true).1.isEmpty
        · simp [hempty]
        · simp [hempty, hmem]
      rw [hbound]
      have hmono : (if p ∈ availV (sv.search_one q tol true).2 then 1 else 0)
          ≤ (if p ∈ availV sv then 1 else 0) := by
        by_cases h2 : p ∈ availV (sv.search_one q tol true).2
        · rw [if_pos h2, if_pos (vecSearchOne_avail_subset sv q tol p h2)]
        · simp [h2]
      omega

theorem intoWithout_avail_iff (sv : SearchVec) (p : String) :
    (p ∈ availV sv.into_without_unmatched ↔ p ∈ availV sv) := by
  have hperm := intoWithout_perm sv
  have hunt := intoWithout_untainted sv
  have h1 : sv.into_without_unmatched.entries.filter (fun e => !e.value_tainted) =
      sv.into_without_unmatched.entries :=
    List.filter_eq_self.mpr (fun e he => by simp [hunt e he])
  rw [availV, availV, untaintedValuesV, untaintedValuesV, h1]
  exact List.Perm.mem_iff ((hperm.map _).map _)

theorem intoWithout_pathsNodup (sv : SearchVec) (hnd : pathsVNodup sv) :
    pathsVNodup sv.into_without_unmatched := by
  have hperm := intoWithout_perm sv
  rw [pathsVNodup] at hnd ⊢
  have hsub : ((sv.entries.filter (fun e => !e.value_tainted)).map
      (fun e => e.value.src_path)).Sublist (sv.entries.map (fun e => e.value.src_path)) :=
    (List.filter_sublist _).map _
  exact ((hperm.map _).nodup_iff).mpr (hsub.nodup hnd)

theorem findAllLoopVec_count :
    ∀ (N : Nat) (sv : SearchVec) (tol : ScaledTolerance) (hinv : VInv sv),
      sv.entries.length ≤ N → pathsVNodup sv → ∀ (p : String),
      (findAllLoopVec sv tol hinv).countP (fun g => decide (p ∈ g.duplicates))
        ≤ (if p ∈ availV sv then 1 else 0) := by
  intro N
  induction N with
  | zero =>
    intro sv tol hinv hlen hnd p
    have h0 : sv.len = 0 := by
      rw [SearchVec.len]; omega
    rw [findAllLoopVec.eq_def, dif_pos h0]
    simp
  | succ N ih =>
    intro sv tol hinv hlen hnd p
    rw [findAllLoopVec.eq_def]
    by_cases h0 : sv.len = 0
    · rw [dif_pos h0]; simp
    · rw [dif_neg h0]
      show ((((sv.search_deterministic (sv.fetch_unmatched_items 5000) tol true).1.filter
            fun g => g.length > 1).map
            (fun g => MatchGroup.new (g.map TemporalHash.src_path))
          ++ findAllLoopVec
            (sv.search_deterministic (sv.fetch_unmatched_items 5000) tol
              true).2.into_without_unmatched
            tol (fun e he => intoWithout_untainted _ e he)).countP
          (fun g => decide (p ∈ g.duplicates)))
        ≤ (if p ∈ availV sv then 1 else 0)
      set items := sv.fetch_unmatched_items 5000 with hitems
      set R := sv.search_deterministic items tol true with hR
      rw [List.countP_append]
      have hcount1 :
          (((R.1.filter fun g => g.length > 1).map
            (fun g => MatchGroup.new (g.map TemporalHash.src_path))).countP
              (fun g => decide (p ∈ g.duplicates)))
          ≤ R.1.countP (fun g => decide (p ∈ pathsOf g)) := by
        rw [List.countP_map]
        have heq : ((fun g => decide (p ∈ g.duplicates)) ∘
            (fun g => MatchGroup.new (g.map TemporalHash.src_path))) =
            fun (g : List TemporalHash) => decide (p ∈ pathsOf g) := by
          funext g
          simp [MatchGroup.new, pathsOf]
        rw [heq]
        exact (List.filter_sublist _).countP_le _
      have hL2 := vecSearchDet_count items sv tol hnd p
      rw [← hR] at hL2
      have hdec : R.2.into_without_unmatched.entries.length ≤ N := by
        have := vecLoop_decrease sv tol hinv h0
        rw [← hitems, ← hR] at this
        omega
      have hnd2 : pathsVNodup R.2.into_without_unmatched := by
        apply intoWithout_pathsNodup
        rw [hR, pathsVNodup, vecSearchDet_entries, List.map_map]
        have hcomp : ((fun e => e.value.src_path) ∘ vecStepMany items tol true) =
            fun (e : SearchVecEntry) => e.value.src_path := by
          funext e
          simp [Function.comp_def, vecStepMany_value]
        rw [hcomp]
        exact hnd
      have hrec := ih R.2.into_without_unmatched tol
        (fun e he => intoWithout_untainted _ e he) hdec hnd2 p
      have havail2 : (if p ∈ availV R.2.into_without_unmatched then 1 else 0)
          = (if p ∈ availV R.2 then 1 else 0) := by
        by_cases h2 : p ∈ availV R.2
        · rw [if_pos h2, if_pos ((intoWithout_avail_iff R.2 p).mpr h2)]
        · rw [if_neg h2, if_neg (fun hc => h2 ((intoWithout_avail_iff R.2 p).mp hc))]
      omega

/-- The match test `search_inner` applies at a node (the taint flag is read
twice in the source; both reads see the same value here). -/
def bkHit (v : TemporalHash) (tainted : Bool) (q : TemporalHash)
    (tol : ScaledTolerance) : Bool :=
  ((v.distance q).spatial ≤ tol.spatial && !tainted)
    && ((v.distance q).temporal ≤ tol.temporal && !tainted)

/-- Lower end of the spatial candidate range. -/
def sMinB (v q : TemporalHash) (tol : ScaledTolerance) : Nat :=
  (v.distance q).spatial - tol.spatial

/-- Upper end of the spatial candidate range. -/
def sMaxB (v q : TemporalHash) (tol : ScaledTolerance) : Nat :=
  satAdd (v.distance q).spatial tol.spatial

/-- Lower end of the temporal candidate range. -/
def tMinB (v q : TemporalHash) (tol : ScaledTolerance) : Nat :=
  (v.distance q).temporal - tol.temporal

/-- Upper end of the temporal candidate range. -/
def tMaxB (v q : TemporalHash) (tol : ScaledTolerance) : Nat :=
  satAdd (v.distance q).temporal tol.temporal

theorem bk_search_inner_some (v : TemporalHash) (tainted : Bool) (ch : BkChildren)
    (q : TemporalHash) (tol : ScaledTolerance) (c : Bool) :
    (BkTree.mk (some v) tainted ch).search_inner q tol c =
      ((if bkHit v tainted q tol then [v] else [])
          ++ (BkChildren.searchRange ch q tol c (sMinB v q tol) (sMaxB v q tol)
            (tMinB v q tol) (tMaxB v q tol)).1,
        .mk (some v) (tainted || (bkHit v tainted q tol && c))
          (BkChildren.searchRange ch q tol c (sMinB v q tol) (sMaxB v q tol)
            (tMinB v q tol) (tMaxB v q tol)).2) := rfl

theorem bk_searchRange_cons (k : Nat) (c : BkTree) (rest : BkChildren)
    (q : TemporalHash) (tol : ScaledTolerance) (cons : Bool) (smin smax tmin tmax : Nat) :
    BkChildren.searchRange (.cons k c rest) q tol cons smin smax tmin tmax =
      ((if smin ≤ k && k ≤ smax && (tmin ≤ k && k ≤ tmax) then
          (c.search_inner q tol cons).1 else [])
        ++ (BkChildren.searchRange rest q tol cons smin smax tmin tmax).1,
       .cons k
         (if smin ≤ k && k ≤ smax && (tmin ≤ k && k ≤ tmax) then
           (c.search_inner q tol cons).2 else c)
         (BkChildren.searchRange rest q tol cons smin smax tmin tmax).2) := by
  rw [BkChildren.searchRange]
  by_cases hk : (smin ≤ k && k ≤ smax && (tmin ≤ k && k ≤ tmax)) = true
  · simp only [hk, if_true]
  · simp only [hk, if_false]
    simp only [Bool.not_eq_true] at hk
    simp [hk]

mutual

theorem bk_si_unm_sublist (t : BkTree) (q : TemporalHash) (tol : ScaledTolerance)
    (c : Bool) :
    (t.search_inner q tol c).2.into_unmatched_items.Sublist t.into_unmatched_items := by
  cases t with
  | mk val tainted ch =>
    cases val with
    | none => exact List.Sublist.refl _
    | some v =>
      rw [bk_search_inner_some]
      rw [BkTree.into_unmatched_items, BkTree.into_unmatched_items]
      apply List.Sublist.append
      · cases htainted : tainted with
        | true => simp
        | false =>
          cases hb : (bkHit v false q tol && c) with
          | true => simp
          | false => simp
      · exact bkCh_sr_unm_sublist ch q tol c _ _ _ _

theorem bkCh_sr_unm_sublist (ch : BkChildren) (q : TemporalHash) (tol : ScaledTolerance)
    (c : Bool) (smin smax tmin tmax : Nat) :
    (BkChildren.searchRange ch q tol c smin smax tmin tmax).2.unmatchedItems.Sublist
      ch.unmatchedItems := by
  cases ch with
  | nil => exact List.Sublist.refl _
  | cons k child rest =>
    rw [bk_searchRange_cons]
    rw [BkChildren.unmatchedItems, BkChildren.unmatchedItems]
    apply List.Sublist.append
    · by_cases hk : (smin ≤ k && k ≤ smax && (tmin ≤ k && k ≤ tmax)) = true
      · rw [if_pos hk]
        exact bk_si_unm_sublist child q tol c
      · rw [if_neg hk]
    · exact bkCh_sr_unm_sublist rest q tol c smin smax tmin tmax

end

mutual

theorem bk_si_emitted_sublist (t : BkTree) (q : TemporalHash) (tol : ScaledTolerance)
    (c : Bool) :
    (t.search_inner q tol c).1.Sublist t.into_unmatched_items := by
  cases t with
  | mk val tainted ch =>
    cases val with
    | none => exact List.nil_sublist _
    | some v =>
      rw [bk_search_inner_some]
      rw [BkTree.into_unmatched_items]
      apply List.Sublist.append
      · by_cases hhit : bkHit v tainted q tol = true
        · rw [if_pos hhit]
          have huntainted : tainted = false := by
            simp only [bkHit, Bool.and_eq_true, Bool.not_eq_eq_eq_not, Bool.not_true] at hhit
            exact hhit.1.2
          rw [huntainted]
          simp
        · rw [if_neg hhit]
          simp
      · exact bkCh_sr_emitted_sublist ch q tol c _ _ _ _

theorem bkCh_sr_emitted_sublist (ch : BkChildren) (q : TemporalHash)
    (tol : ScaledTolerance) (c : Bool) (smin smax tmin tmax : Nat) :
    (BkChildren.searchRange ch q tol c smin smax tmin tmax).1.Sublist
      ch.unmatchedItems := by
  cases ch with
  | nil => simp [BkChildren.searchRange, BkChildren.unmatchedItems]
  | cons k child rest =>
    rw [bk_searchRange_cons]
    rw [BkChildren.unmatchedItems]
    apply List.Sublist.append
    · by_cases hk : (smin ≤ k && k ≤ smax && (tmin ≤ k && k ≤ tmax)) = true
      · rw [if_pos hk]
        exact bk_si_emitted_sublist child q tol c
      · rw [if_neg hk]
        simp
    · exact bkCh_sr_emitted_sublist rest q tol c smin smax tmin tmax

end

theorem pathsOf_mem_of_sublist {l1 l2 : List TemporalHash} (h : l1.Sublist l2)
    {p : String} (hp : p ∈ pathsOf l1) : p ∈ pathsOf l2 :=
  (h.map TemporalHash.src_path).subset hp

theorem pathsOf_append (a b : List TemporalHash) :
    pathsOf (a ++ b) = pathsOf a ++ pathsOf b := List.map_append _ _ _

mutual

theorem bk_si_emitted_not_unm (t : BkTree) (q : TemporalHash) (tol : ScaledTolerance)
    (hnd : (pathsOf t.values).Nodup) :
    ∀ p ∈ pathsOf (t.search_inner q tol true).1,
      p ∉ pathsOf (t.search_inner q tol true).2.into_unmatched_items := by
  cases t with
  | mk val tainted ch =>
    cases val with
    | none =>
      intro p hp
      have hemp : ((BkTree.mk none tainted ch).search_inner q tol true).1 = [] := rfl
      rw [hemp] at hp
      simp [pathsOf] at hp
    | some v =>
      rw [BkTree.values] at hnd
      rw [pathsOf_append] at hnd
      have hnd2 : (v.src_path :: pathsOf ch.valuesList).Nodup := by
        have hh : pathsOf [v] ++ pathsOf ch.valuesList =
            v.src_path :: pathsOf ch.valuesList := rfl
        rw [hh] at hnd
        exact hnd
      have hndc : v.src_path ∉ pathsOf ch.valuesList ∧ (pathsOf ch.valuesList).Nodup :=
        List.nodup_cons.mp hnd2
      rw [bk_search_inner_some]
      intro p hp
      rw [pathsOf_append] at hp
      rw [BkTree.into_unmatched_items]
      rw [pathsOf_append]
      intro hmem
      have hchain : ∀ x ∈ pathsOf (BkChildren.searchRange ch q tol true (sMinB v q tol)
          (sMaxB v q tol) (tMinB v q tol) (tMaxB v q tol)).2.unmatchedItems,
          x ∈ pathsOf ch.valuesList := by
        intro x hx
        exact pathsOf_mem_of_sublist
          ((bkCh_sr_unm_sublist ch q tol true _ _ _ _).trans (bkCh_unmatched_sublist ch)) hx
      rcases List.mem_append.mp hp with hroot | hchild
      · have hhit : bkHit v tainted q tol = true := by
          by_cases hb : bkHit v tainted q tol = true
          · exact hb
          · rw [if_neg hb] at hroot
            simp [pathsOf] at hroot
        rw [if_pos hhit] at hroot
        have hpv : p = v.src_path := by
          simpa [pathsOf] using hroot
        have huntaint : tainted = false := by
          simp only [bkHit, Bool.and_eq_true, Bool.not_eq_eq_eq_not, Bool.not_true] at hhit
          exact hhit.1.2
        have htt : (tainted || (bkHit v tainted q tol && true)) = true := by
          rw [huntaint] at hhit ⊢
          simp [hhit]
        rw [htt] at hmem
        rcases List.mem_append.mp hmem with h1 | h2
        · simp [pathsOf] at h1
        · exact hndc.1 (hpv ▸ hchain p h2)
      · have hpch : p ∈ pathsOf ch.valuesList :=
          pathsOf_mem_of_sublist
            ((bkCh_sr_emitted_sublist ch q tol true _ _ _ _).trans
              (bkCh_unmatched_sublist ch)) hchild
        rcases List.mem_append.mp hmem with h1 | h2
        · have : p = v.src_path := by
            by_cases htt : (tainted || (bkHit v tainted q tol && true)) = true
            · rw [htt] at h1
              simp [pathsOf] at h1
            · rw [Bool.not_eq_true] at htt
              rw [htt] at h1
              simpa [pathsOf] using h1
          exact hndc.1 (this ▸ hpch)
        · exact bkCh_sr_emitted_not_unm ch q tol (sMinB v q tol) (sMaxB v q tol)
            (tMinB v q tol) (tMaxB v q tol) hndc.2 p hchild h2

theorem bkCh_sr_emitted_not_unm (ch : BkChildren) (q : TemporalHash)
    (tol : ScaledTolerance) (smin smax tmin tmax : Nat)
    (hnd : (pathsOf ch.valuesList).Nodup) :
    ∀ p ∈ pathsOf (BkChildren.searchRange ch q tol true smin smax tmin tmax).1,
      p ∉ pathsOf
        (BkChildren.searchRange ch q tol true smin smax tmin tmax).2.unmatchedItems := by
  cases ch with
  | nil =>
    intro p hp
    simp [BkChildren.searchRange, pathsOf] at hp
  | cons k child rest =>
    rw [BkChildren.valuesList, pathsOf_append] at hnd
    rw [List.nodup_append] at hnd
    rcases hnd with ⟨hndc, hndr, hdisj⟩
    rw [bk_searchRange_cons]
    intro p hp
    rw [pathsOf_append] at hp
    rw [BkChildren.unmatchedItems, pathsOf_append]
    intro hmem
    have hfirst_sub : ∀ x ∈ pathsOf (if smin ≤ k && k ≤ smax && (tmin ≤ k && k ≤ tmax) then
        (child.search_inner q tol true).2 else child).into_unmatched_items,
        x ∈ pathsOf child.values := by
      intro x hx
      by_cases hk : (smin ≤ k && k ≤ smax && (tmin ≤ k && k ≤ tmax)) = true
      · rw [if_pos hk] at hx
        exact pathsOf_mem_of_sublist
          ((bk_si_unm_sublist child q tol true).trans (bk_unmatched_sublist child)) hx
      · rw [if_neg hk] at hx
        exact pathsOf_mem_of_sublist (bk_unmatched_sublist child) hx
    have hrest_sub : ∀ x ∈ pathsOf (BkChildren.searchRange rest q tol true smin smax
        tmin tmax).2.unmatchedItems, x ∈ pathsOf rest.valuesList := by
      intro x hx
      exact pathsOf_mem_of_sublist
        ((bkCh_sr_unm_sublist rest q tol true _ _ _ _).trans
          (bkCh_unmatched_sublist rest)) hx
    rcases List.mem_append.mp hp with hc | hr
    · have hk : (smin ≤ k && k ≤ smax && (tmin ≤ k && k ≤ tmax)) = true := by
        by_cases hb : (smin ≤ k && k ≤ smax && (tmin ≤ k && k ≤ tmax)) = true
        · exact hb
        · rw [if_neg hb] at hc
          simp [pathsOf] at hc
      rw [if_pos hk] at hc
      have hpc : p ∈ pathsOf child.values :=
        pathsOf_mem_of_sublist
          ((bk_si_emitted_sublist child q tol true).trans (bk_unmatched_sublist child)) hc
      rcases List.mem_append.mp hmem with h1 | h2
      · rw [if_pos hk] at h1
        exact bk_si_emitted_not_unm child q tol hndc p hc h1
      · exact hdisj hpc (hrest_sub p h2)
    · have hpr : p ∈ pathsOf rest.valuesList :=
        pathsOf_mem_of_sublist
          ((bkCh_sr_emitted_sublist rest q tol true _ _ _ _).trans
            (bkCh_unmatched_sublist rest)) hr
      rcases List.mem_append.mp hmem with h1 | h2
      · exact hdisj (hfirst_sub p h1) hpr
      · exact bkCh_sr_emitted_not_unm rest q tol smin smax tmin tmax hndr p hr h2

end

/-- The paths still available for matching in the BK-tree backend: the
untainted stored values. -/
def availB (t : BkTree) : List String := pathsOf t.into_unmatched_items

/-- All stored paths are pairwise distinct. -/
def pathsBNodup (t : BkTree) : Prop := (pathsOf t.values).Nodup

theorem bk_so_state (t : BkTree) (q : TemporalHash) (tol : ScaledTolerance) (c : Bool) :
    (t.search_one q tol c).2 =
      .mk (t.search_inner q tol c).2.value true (t.search_inner q tol c).2.children := rfl

theorem bk_unm_taintroot_sublist (v : Option TemporalHash) (τ : Bool) (ch : BkChildren) :
    (BkTree.mk v true ch).into_unmatched_items.Sublist
      (BkTree.mk v τ ch).into_unmatched_items := by
  cases v with
  | none => exact List.Sublist.refl _
  | some x =>
    cases τ with
    | true => exact List.Sublist.refl _
    | false =>
      exact List.Sublist.append (List.nil_sublist [x]) (List.Sublist.refl _)

theorem bk_so_unm_sublist (t : BkTree) (q : TemporalHash) (tol : ScaledTolerance)
    (c : Bool) :
    (t.search_one q tol c).2.into_unmatched_items.Sublist t.into_unmatched_items := by
  rw [bk_so_state]
  rcases hsi : (t.search_inner q tol c).2 with ⟨v', τ', ch'⟩
  refine (bk_unm_taintroot_sublist v' τ' ch').trans ?_
  have := bk_si_unm_sublist t q tol c
  rw [hsi] at this
  exact this

theorem bk_so_emitted_sublist (t : BkTree) (q : TemporalHash) (tol : ScaledTolerance)
    (c : Bool) : (t.search_one q tol c).1.Sublist t.into_unmatched_items :=
  bk_si_emitted_sublist t q tol c

theorem bk_so_emitted_avail (t : BkTree) (q : TemporalHash) (tol : ScaledTolerance)
    (c : Bool) (p : String) (h : p ∈ pathsOf (t.search_one q tol c).1) : p ∈ availB t :=
  pathsOf_mem_of_sublist (bk_so_emitted_sublist t q tol c) h

theorem bk_so_avail_subset (t : BkTree) (q : TemporalHash) (tol : ScaledTolerance)
    (c : Bool) (p : String) (h : p ∈ availB (t.search_one q tol c).2) : p ∈ availB t :=
  pathsOf_mem_of_sublist (bk_so_unm_sublist t q tol c) h

theorem bk_so_emitted_not_avail (t : BkTree) (q : TemporalHash) (tol : ScaledTolerance)
    (hnd : pathsBNodup t) (p : String) (h : p ∈ pathsOf (t.search_one q tol true).1) :
    p ∉ availB (t.search_one q tol true).2 := by
  intro hav
  have hnot := bk_si_emitted_not_unm t q tol hnd p h
  rw [availB, bk_so_state] at hav
  rcases hsi : (t.search_inner q tol true).2 with ⟨v', τ', ch'⟩
  rw [hsi] at hav hnot
  simp only [BkTree.value, BkTree.children] at hav
  exact hnot (pathsOf_mem_of_sublist (bk_unm_taintroot_sublist v' τ' ch') hav)

theorem bk_so_pathsNodup (t : BkTree) (q : TemporalHash) (tol : ScaledTolerance)
    (c : Bool) (hnd : pathsBNodup t) : pathsBNodup (t.search_one q tol c).2 := by
  rw [pathsBNodup, bk_search_one_values]
  exact hnd

theorem bkSearchDet_count (qs : List TemporalHash) :
    ∀ (t : BkTree) (tol : ScaledTolerance), pathsBNodup t → ∀ (p : String),
      ((t.search_deterministic qs tol true).1.countP (fun g => decide (p ∈ pathsOf g)))
          + (if p ∈ availB (t.search_deterministic qs tol true).2 then 1 else 0)
        ≤ (if p ∈ availB t then 1 else 0) := by
  induction qs with
  | nil =>
    intro t tol _ p
    simp [BkTree.search_deterministic]
  | cons q rest ih =>
    intro t tol hnd p
    have hu1 : (t.search_deterministic (q :: rest) tol true).1 =
        (if (t.search_one q tol true).1.isEmpty then [] else [(t.search_one q tol true).1])
          ++ ((t.search_one q tol true).2.search_deterministic rest tol true).1 := rfl
    have hu2 : (t.search_deterministic (q :: rest) tol true).2 =
        ((t.search_one q tol true).2.search_deterministic rest tol true).2 := rfl
    rw [hu1, hu2, List.countP_append]
    have hnd2 : pathsBNodup (t.search_one q tol true).2 :=
      bk_so_pathsNodup t q tol true hnd
    have hih := ih (t.search_one q tol true).2 tol hnd2 p
    by_cases hmem : p ∈ pathsOf (t.search_one q tol true).1
    · have hav : p ∈ availB t := bk_so_emitted_avail t q tol true p hmem
      have hnav : p ∉ availB (t.search_one q tol true).2 :=
        bk_so_emitted_not_avail t q tol hnd p hmem
      have hne : ¬(t.search_one q tol true).1.isEmpty := by
        rcases List.mem_map.mp hmem with ⟨x, hx, _⟩
        intro hempty
        rw [List.isEmpty_iff.mp hempty] at hx
        simp at hx
      rw [if_neg hne, if_pos hav]
      have h1 : ([(t.search_one q tol true).1].countP (fun g => decide (p ∈ pathsOf g))) = 1 := by
        simp [hmem]
      rw [h1]
      rw [if_neg hnav] at hih
      omega
    · have hbound : (if (t.search_one q tol true).1.isEmpty then ([] : List (List TemporalHash))
          else [(t.search_one q tol true).1]).countP (fun g => decide (p ∈ pathsOf g)) = 0 := by
        by_cases hempty : (t.search_one q tol true).1.isEmpty
        · simp [hempty]
        · simp [hempty, hmem]
      rw [hbound]
      have hmono : (if p ∈ availB (t.search_one q tol true).2 then 1 else 0)
          ≤ (if p ∈ availB t then 1 else 0) := by
        by_cases h2 : p ∈ availB (t.search_one q tol true).2
        · rw [if_pos h2, if_pos (bk_so_avail_subset t q tol true p h2)]
        · simp [h2]
      omega

mutual

theorem bk_seed_values_perm (t : BkTree) (e : TemporalHash) :
    (t.seed e).values.Perm (t.values ++ [e]) := by
  cases t with
  | mk val tainted ch =>
    cases val with
    | none =>
      exact (List.perm_append_singleton e ch.valuesList).symm
    | some x =>
      exact (bkCh_seedAt_values_perm ch ((x.distance e).u32_value) e).cons x

theorem bkCh_seedAt_values_perm (ch : BkChildren) (d : Nat) (e : TemporalHash) :
    (BkChildren.seedAt ch d e).valuesList.Perm (ch.valuesList ++ [e]) := by
  cases ch with
  | nil =>
    show (BkChildren.cons d (.mk (some e) false .nil) .nil).valuesList.Perm _
    rw [BkChildren.valuesList]
    simp [BkChildren.valuesList, BkTree.values]
  | cons k c rest =>
    rw [BkChildren.seedAt]
    by_cases hk : k = d
    · rw [if_pos hk]
      rw [BkChildren.valuesList, BkChildren.valuesList]
      refine ((bk_seed_values_perm c e).append_right rest.valuesList).trans ?_
      rw [List.append_assoc, List.append_assoc]
      exact List.Perm.append_left _ List.perm_append_comm
    · rw [if_neg hk]
      rw [BkChildren.valuesList, BkChildren.valuesList]
      refine (List.Perm.append_left c.values (bkCh_seedAt_values_perm rest d e)).trans ?_
      rw [List.append_assoc]

end

theorem bk_fromList_values_perm (l : List TemporalHash) :
    ∀ (t : BkTree), (l.foldl BkTree.seed t).values.Perm (t.values ++ l) := by
  induction l with
  | nil => intro t; simp
  | cons e rest ih =>
    intro t
    simp only [List.foldl_cons]
    refine (ih (t.seed e)).trans ?_
    refine ((bk_seed_values_perm t e).append_right rest).trans ?_
    rw [List.append_assoc]
    exact List.Perm.refl _

theorem bk_intoWithout_avail_iff (t : BkTree) (p : String) :
    (p ∈ availB t.into_without_unmatched ↔ p ∈ availB t) := by
  have hunm : t.into_without_unmatched.into_unmatched_items =
      t.into_without_unmatched.values :=
    bk_unmatched_eq_values _ (bk_fromList_allUnt t.into_unmatched_items _ bk_new_allUnt)
  have hperm : t.into_without_unmatched.values.Perm t.into_unmatched_items := by
    have := bk_fromList_values_perm t.into_unmatched_items BkTree.new
    simpa [BkTree.new, BkTree.values, BkChildren.valuesList] using this
  rw [availB, availB, hunm]
  exact (hperm.map TemporalHash.src_path).mem_iff

theorem bk_intoWithout_pathsNodup (t : BkTree) (hnd : pathsBNodup t) :
    pathsBNodup t.into_without_unmatched := by
  have hperm : t.into_without_unmatched.values.Perm t.into_unmatched_items := by
    have := bk_fromList_values_perm t.into_unmatched_items BkTree.new
    simpa [BkTree.new, BkTree.values, BkChildren.valuesList] using this
  rw [pathsBNodup]
  apply ((hperm.map TemporalHash.src_path).nodup_iff).mpr
  exact ((bk_unmatched_sublist t).map TemporalHash.src_path).nodup hnd

theorem findAllLoopBk_count :
    ∀ (N : Nat) (t : BkTree) (tol : ScaledTolerance) (hinv : BInv t),
      t.values.length ≤ N → pathsBNodup t → ∀ (p : String),
      (findAllLoopBk t tol hinv).countP (fun g => decide (p ∈ g.duplicates))
        ≤ (if p ∈ availB t then 1 else 0) := by
  intro N
  induction N with
  | zero =>
    intro t tol hinv hlen hnd p
    have h0 : t.len = 0 := by
      rw [bk_len_eq_values t hinv.1]; omega
    rw [findAllLoopBk.eq_def, dif_pos h0]
    simp
  | succ N ih =>
    intro t tol hinv hlen hnd p
    rw [findAllLoopBk.eq_def]
    by_cases h0 : t.len = 0
    · rw [dif_pos h0]; simp
    · rw [dif_neg h0]
      show ((((t.search_deterministic (t.fetch_unmatched_items 5000) tol true).1.filter
            fun g => g.length > 1).map
            (fun g => MatchGroup.new (g.map TemporalHash.src_path))
          ++ findAllLoopBk
            (t.search_deterministic (t.fetch_unmatched_items 5000) tol
              true).2.into_without_unmatched
            tol (bk_fromList_BInv _)).countP
          (fun g => decide (p ∈ g.duplicates)))
        ≤ (if p ∈ availB t then 1 else 0)
      set items := t.fetch_unmatched_items 5000 with hitems
      set R := t.search_deterministic items tol true with hR
      rw [List.countP_append]
      have hcount1 :
          (((R.1.filter fun g => g.length > 1).map
            (fun g => MatchGroup.new (g.map TemporalHash.src_path))).countP
              (fun g => decide (p ∈ g.duplicates)))
          ≤ R.1.countP (fun g => decide (p ∈ pathsOf g)) := by
        rw [List.countP_map]
        have heq : ((fun g => decide (p ∈ g.duplicates)) ∘
            (fun g => MatchGroup.new (g.map TemporalHash.src_path))) =
            fun (g : List TemporalHash) => decide (p ∈ pathsOf g) := by
          funext g
          simp [MatchGroup.new, pathsOf]
        rw [heq]
        exact (List.filter_sublist _).countP_le _
      have hL2 := bkSearchDet_count items t tol hnd p
      rw [← hR] at hL2
      have hdec : R.2.into_without_unmatched.values.length ≤ N := by
        have := bkLoop_decrease t tol hinv h0
        rw [← hitems, ← hR] at this
        omega
      have hnd2 : pathsBNodup R.2.into_without_unmatched := by
        apply bk_intoWithout_pathsNodup
        rw [pathsBNodup, hR, bkSearchDet_values]
        exact hnd
      have hrec := ih R.2.into_without_unmatched tol (bk_fromList_BInv _) hdec hnd2 p
      have havail2 : (if p ∈ availB R.2.into_without_unmatched then 1 else 0)
          = (if p ∈ availB R.2 then 1 else 0) := by
        by_cases h2 : p ∈ availB R.2
        · rw [if_pos h2, if_pos ((bk_intoWithout_avail_iff R.2 p).mpr h2)]
        · rw [if_neg h2, if_neg (fun hc => h2 ((bk_intoWithout_avail_iff R.2 p).mp hc))]
      omega

/-- Fuel-bounded evaluator for the linear-backend loop; used only to
compute closed instances (the fuel never runs out when it bounds the
number of seeded entries, see `findAllLoopVec_eq_fuel`). -/
def findAllLoopVecFuel : Nat → SearchVec → ScaledTolerance → List MatchGroup
  | 0, _, _ => []
  | fuel + 1, sv, tol =>
    if sv.len = 0 then []
    else
      ((sv.search_deterministic (sv.fetch_unmatched_items 5000) tol true).1.filter
          fun g => g.length > 1).map
        (fun g => MatchGroup.new (g.map TemporalHash.src_path))
      ++ findAllLoopVecFuel fuel
        (sv.search_deterministic (sv.fetch_unmatched_items 5000) tol
          true).2.into_without_unmatched tol

theorem findAllLoopVec_eq_fuel :
    ∀ (N : Nat) (sv : SearchVec) (tol : ScaledTolerance) (hinv : VInv sv),
      sv.entries.length < N → findAllLoopVec sv tol hinv = findAllLoopVecFuel N sv tol := by
  intro N
  induction N with
  | zero => intro sv tol hinv hlen; omega
  | succ N ih =>
    intro sv tol hinv hlen
    rw [findAllLoopVec.eq_def, findAllLoopVecFuel]
    by_cases h0 : sv.len = 0
    · rw [dif_pos h0, if_pos h0]
    · rw [dif_neg h0, if_neg h0]
      show (((sv.search_deterministic (sv.fetch_unmatched_items 5000) tol true).1.filter
            fun g => g.length > 1).map
            (fun g => MatchGroup.new (g.map TemporalHash.src_path))
          ++ findAllLoopVec
            (sv.search_deterministic (sv.fetch_unmatched_items 5000) tol
              true).2.into_without_unmatched
            tol (fun e he => intoWithout_untainted _ e he)) = _
      congr 1
      apply ih
      have := vecLoop_decrease sv tol hinv h0
      omega

/-- Fuel-bounded evaluator for the BK-tree loop. -/
def findAllLoopBkFuel : Nat → BkTree → ScaledTolerance → List MatchGroup
  | 0, _, _ => []
  | fuel + 1, t, tol =>
    if t.len = 0 then []
    else
      ((t.search_deterministic (t.fetch_unmatched_items 5000) tol true).1.filter
          fun g => g.length > 1).map
        (fun g => MatchGroup.new (g.map TemporalHash.src_path))
      ++ findAllLoopBkFuel fuel
        (t.search_deterministic (t.fetch_unmatched_items 5000) tol
          true).2.into_without_unmatched tol

theorem findAllLoopBk_eq_fuel :
    ∀ (N : Nat) (t : BkTree) (tol : ScaledTolerance) (hinv : BInv t),
      t.values.length < N → findAllLoopBk t tol hinv = findAllLoopBkFuel N t tol := by
  intro N
  induction N with
  | zero => intro t tol hinv hlen; omega
  | succ N ih =>
    intro t tol hinv hlen
    rw [findAllLoopBk.eq_def, findAllLoopBkFuel]
    by_cases h0 : t.len = 0
    · rw [dif_pos h0, if_pos h0]
    · rw [dif_neg h0, if_neg h0]
      show (((t.search_deterministic (t.fetch_unmatched_items 5000) tol true).1.filter
            fun g => g.length > 1).map
            (fun g => MatchGroup.new (g.map TemporalHash.src_path))
          ++ findAllLoopBk
            (t.search_deterministic (t.fetch_unmatched_items 5000) tol
              true).2.into_without_unmatched
            tol (bk_fromList_BInv _)) = _
      congr 1
      apply ih
      have := bkLoop_decrease t tol hinv h0
      omega

/-- Fingerprint construction helper for concrete instances: extract the
fingerprint from a successful `TemporalHash::new`. -/
def mkHashD (src : String) (s t : List (List Nat)) : TemporalHash :=
  ((TemporalHash.new src s t).toOption).getD default

theorem new_ok_eq (src : String) (s t : List (List Nat)) (A : TemporalHash)
    (h : TemporalHash.new src s t = .ok A) :
    A = ⟨writeIntoZeros TEMPORAL_HASH_QWORDS t.flatten,
         writeIntoZeros SPATIAL_HASH_QWORDS s.flatten, s.length, src⟩ ∧
      2 ≤ s.length := by
  rw [TemporalHash.new] at h
  by_cases h1 : s.length < 2
  · rw [if_pos h1] at h
    cases h
  · rw [if_neg h1] at h
    by_cases h2 : (TemporalHash.shash_is_all_zeroes
        ⟨writeIntoZeros TEMPORAL_HASH_QWORDS t.flatten,
         writeIntoZeros SPATIAL_HASH_QWORDS s.flatten, s.length, src⟩ &&
      TemporalHash.thash_is_all_zeroes
        ⟨writeIntoZeros TEMPORAL_HASH_QWORDS t.flatten,
         writeIntoZeros SPATIAL_HASH_QWORDS s.flatten, s.length, src⟩) = true
    · rw [if_pos h2] at h
      cases h
    · rw [if_neg h2] at h
      cases h
      exact ⟨rfl, by omega⟩

theorem flatten_length_singletons (s : List (List Nat)) (h : ∀ f ∈ s, f.length = 1) :
    s.flatten.length = s.length := by
  induction s with
  | nil => rfl
  | cons f rest ih =>
    rw [List.flatten_cons, List.length_append, h f (by simp),
      ih (fun g hg => h g (by simp [hg]))]
    simp only [List.length_cons]
    omega

theorem writeIntoZeros_length (n : Nat) (l : List Nat) (h : l.length ≤ n) :
    (writeIntoZeros n l).length = n := by
  rw [writeIntoZeros, List.length_append, List.length_replicate]
  omega

theorem getD_replicate_zero (m j : Nat) : (List.replicate m (0 : Nat)).getD j 0 = 0 := by
  by_cases hj : j < m
  · rw [List.getD_eq_getElem _ _ (by simpa using hj)]
    simp
  · rw [List.getD_eq_default]
    simpa using hj

theorem writeIntoZeros_getD (n : Nat) (l : List Nat) (k : Nat) :
    (writeIntoZeros n l).getD k 0 = l.getD k 0 := by
  rw [writeIntoZeros]
  by_cases hk : k < l.length
  · rw [List.getD_append _ _ _ _ hk]
  · rw [List.getD_append_right _ _ _ _ (by omega), getD_replicate_zero,
      List.getD_eq_default _ _ (by omega)]

theorem getD_zero_of_ge (l : List Nat) (k : Nat) (h : l.length ≤ k) : l.getD k 0 = 0 :=
  List.getD_eq_default _ _ h

theorem foldl_add_map {α : Type} (f : α → Nat) (l : List α) :
    ∀ acc, l.foldl (fun a x => a + f x) acc = acc + (l.map f).sum := by
  induction l with
  | nil => intro acc; simp
  | cons x rest ih =>
    intro acc
    rw [List.foldl_cons, ih, List.map_cons, List.sum_cons]
    omega

theorem raw_foldl_acc (l : List (Nat × Nat)) :
    ∀ acc, l.foldl (fun acc p => acc + count_ones (Nat.xor p.1 p.2)) acc =
      acc + l.foldl (fun acc p => acc + count_ones (Nat.xor p.1 p.2)) 0 := by
  induction l with
  | nil => intro acc; simp
  | cons x rest ih =>
    intro acc
    rw [List.foldl_cons, List.foldl_cons, ih, ih (0 + count_ones (Nat.xor x.1 x.2))]
    omega

theorem raw_distance_eq_sum_range :
    ∀ (n : Nat) (x y : List Nat), x.length = n → y.length = n →
      raw_distance x y =
        ((List.range n).map
          (fun k => count_ones (Nat.xor (x.getD k 0) (y.getD k 0)))).sum := by
  intro n
  induction n with
  | zero =>
    intro x y hx hy
    rw [List.length_eq_zero] at hx hy
    subst hx; subst hy
    rfl
  | succ n ih =>
    intro x y hx hy
    rcases x with _ | ⟨a, x'⟩
    · simp at hx
    rcases y with _ | ⟨b, y'⟩
    · simp at hy
    have hx' : x'.length = n := by simpa using hx
    have hy' : y'.length = n := by simpa using hy
    rw [List.range_succ_eq_map, List.map_cons, List.sum_cons]
    have hmap : (List.map Nat.succ (List.range n)).map
        (fun k => count_ones (Nat.xor ((a :: x').getD k 0) ((b :: y').getD k 0))) =
        (List.range n).map (fun k => count_ones (Nat.xor (x'.getD k 0) (y'.getD k 0))) := by
      rw [List.map_map]
      rfl
    rw [hmap]
    have hraw : raw_distance (a :: x') (b :: y') =
        count_ones (Nat.xor a b) + raw_distance x' y' := by
      rw [raw_distance, raw_distance, List.zip_cons_cons, List.foldl_cons]
      dsimp only
      rw [raw_foldl_acc]
      omega
    rw [hraw, ih x' y' hx' hy']
    rfl

theorem sum_range_map_congr_zero (f : Nat → Nat) :
    ∀ (N M : Nat), M ≤ N → (∀ k, M ≤ k → f k = 0) →
      ((List.range N).map f).sum = ((List.range M).map f).sum := by
  intro N
  induction N with
  | zero =>
    intro M hM _
    rw [Nat.le_zero.mp hM]
  | succ N ih =>
    intro M hM hz
    by_cases hMN : M = N + 1
    · rw [hMN]
    · have hM' : M ≤ N := by omega
      rw [List.range_succ, List.map_append, List.sum_append]
      rw [ih M hM' hz]
      simp [hz N (by omega)]

def c1A : TemporalHash := mkHashD "a" [[0], [1], [7]] [[1], [6]]
def c1B : TemporalHash := mkHashD "b" [[0], [1]] [[1]]

/-- C1, counterexample: with fingerprints of 3 and 2 frames, the raw
spatial distance is not the sum over `k < m = min(nA, nB)`: the stored
word of the longer hash at index 2 ≥ m contributes its popcount. -/
theorem C1_counterexample :
    raw_distance c1A.shash c1B.shash ≠
      ((List.range (min c1A.num_frames c1B.num_frames)).map
        (fun k => count_ones (Nat.xor (c1A.shash.getD k 0) (c1B.shash.getD k 0)))).sum ∧
    raw_distance c1A.shash c1B.shash = 3 ∧
    ((List.range (min c1A.num_frames c1B.num_frames)).map
        (fun k => count_ones (Nat.xor (c1A.shash.getD k 0) (c1B.shash.getD k 0)))).sum = 0 := by
  decide

/-- C1, amended: for fingerprints built by `TemporalHash::new` from
well-formed per-frame words, the raw spatial distance equals the sum of
XOR popcounts over `k < max(nA, nB)` (not `min`), and likewise the raw
temporal distance sums over `k < max(nA, nB) - 1`; words at indices at or
beyond `max` (resp. `max - 1`) are zero and contribute nothing, while the
indices between `min` and `max` do contribute. -/
theorem C1_raw_distance_full_arrays (srcA srcB : String)
    (sA tA sB tB : List (List Nat)) (A B : TemporalHash)
    (hA1 : ∀ f ∈ sA, f.length = 1) (hA2 : sA.length ≤ HASH_NUM_IMAGES)
    (hA3 : tA.length = sA.length - 1) (hA4 : ∀ f ∈ tA, f.length = 1)
    (hB1 : ∀ f ∈ sB, f.length = 1) (hB2 : sB.length ≤ HASH_NUM_IMAGES)
    (hB3 : tB.length = sB.length - 1) (hB4 : ∀ f ∈ tB, f.length = 1)
    (hAok : TemporalHash.new srcA sA tA = .ok A)
    (hBok : TemporalHash.new srcB sB tB = .ok B) :
    raw_distance A.shash B.shash =
      ((List.range (max A.num_frames B.num_frames)).map
        (fun k => count_ones (Nat.xor (A.shash.getD k 0) (B.shash.getD k 0)))).sum ∧
    (∀ k, max A.num_frames B.num_frames ≤ k →
      count_ones (Nat.xor (A.shash.getD k 0) (B.shash.getD k 0)) = 0) ∧
    raw_distance A.thash B.thash =
      ((List.range (max A.num_frames B.num_frames - 1)).map
        (fun k => count_ones (Nat.xor (A.thash.getD k 0) (B.thash.getD k 0)))).sum ∧
    (∀ k, max A.num_frames B.num_frames - 1 ≤ k →
      count_ones (Nat.xor (A.thash.getD k 0) (B.thash.getD k 0)) = 0) := by
  have hNI : HASH_NUM_IMAGES = 10 := rfl
  have hTQ : TEMPORAL_HASH_QWORDS = 9 := rfl
  have hSQ : SPATIAL_HASH_QWORDS = 10 := rfl
  obtain ⟨hAeq, hAn⟩ := new_ok_eq srcA sA tA A hAok
  obtain ⟨hBeq, hBn⟩ := new_ok_eq srcB sB tB B hBok
  have hAfl : sA.flatten.length = sA.length := flatten_length_singletons sA hA1
  have hBfl : sB.flatten.length = sB.length := flatten_length_singletons sB hB1
  have hAtfl : tA.flatten.length = tA.length := flatten_length_singletons tA hA4
  have hBtfl : tB.flatten.length = tB.length := flatten_length_singletons tB hB4
  have hAsh : A.shash = writeIntoZeros SPATIAL_HASH_QWORDS sA.flatten := by rw [hAeq]
  have hBsh : B.shash = writeIntoZeros SPATIAL_HASH_QWORDS sB.flatten := by rw [hBeq]
  have hAth : A.thash = writeIntoZeros TEMPORAL_HASH_QWORDS tA.flatten := by rw [hAeq]
  have hBth : B.thash = writeIntoZeros TEMPORAL_HASH_QWORDS tB.flatten := by rw [hBeq]
  have hAnum : A.num_frames = sA.length := by rw [hAeq]
  have hBnum : B.num_frames = sB.length := by rw [hBeq]
  have hM10 : max A.num_frames B.num_frames ≤ 10 := by
    rw [hAnum, hBnum]
    omega
  have hszero : ∀ k, max A.num_frames B.num_frames ≤ k →
      count_ones (Nat.xor (A.shash.getD k 0) (B.shash.getD k 0)) = 0 := by
    intro k hk
    rw [hAsh, hBsh, writeIntoZeros_getD, writeIntoZeros_getD]
    rw [getD_zero_of_ge _ _ (by rw [hAfl]; omega),
      getD_zero_of_ge _ _ (by rw [hBfl]; omega)]
    rfl
  have htzero : ∀ k, max A.num_frames B.num_frames - 1 ≤ k →
      count_ones (Nat.xor (A.thash.getD k 0) (B.thash.getD k 0)) = 0 := by
    intro k hk
    rw [hAth, hBth, writeIntoZeros_getD, writeIntoZeros_getD]
    rw [getD_zero_of_ge _ _ (by rw [hAtfl, hA3]; omega),
      getD_zero_of_ge _ _ (by rw [hBtfl, hB3]; omega)]
    rfl
  refine ⟨?_, hszero, ?_, htzero⟩
  · have hlenA : A.shash.length = 10 :=
      hAsh ▸ writeIntoZeros_length _ _ (by rw [hAfl]; omega)
    have hlenB : B.shash.length = 10 :=
      hBsh ▸ writeIntoZeros_length _ _ (by rw [hBfl]; omega)
    rw [raw_distance_eq_sum_range 10 A.shash B.shash hlenA hlenB]
    exact sum_range_map_congr_zero _ 10 _ hM10 hszero
  · have hlenA : A.thash.length = 9 :=
      hAth ▸ writeIntoZeros_length _ _ (by rw [hAtfl, hA3]; omega)
    have hlenB : B.thash.length = 9 :=
      hBth ▸ writeIntoZeros_length _ _ (by rw [hBtfl, hB3]; omega)
    rw [raw_distance_eq_sum_range 9 A.thash B.thash hlenA hlenB]
    exact sum_range_map_congr_zero _ 9 _ (by omega) htzero

def c1wA : TemporalHash := mkHashD "a" [[1], [2], [4]] [[3], [6]]
def c1wB : TemporalHash := mkHashD "b" [[1], [2]] [[3]]

theorem C1_witness :
    ((∀ f ∈ ([[1], [2], [4]] : List (List Nat)), f.length = 1) ∧
      TemporalHash.new "a" [[1], [2], [4]] [[3], [6]] = .ok c1wA ∧
      TemporalHash.new "b" [[1], [2]] [[3]] = .ok c1wB) ∧
    (raw_distance c1wA.shash c1wB.shash =
      ((List.range (max c1wA.num_frames c1wB.num_frames)).map
        (fun k => count_ones (Nat.xor (c1wA.shash.getD k 0) (c1wB.shash.getD k 0)))).sum ∧
    (∀ k, max c1wA.num_frames c1wB.num_frames ≤ k →
      count_ones (Nat.xor (c1wA.shash.getD k 0) (c1wB.shash.getD k 0)) = 0) ∧
    raw_distance c1wA.thash c1wB.thash =
      ((List.range (max c1wA.num_frames c1wB.num_frames - 1)).map
        (fun k => count_ones (Nat.xor (c1wA.thash.getD k 0) (c1wB.thash.getD k 0)))).sum ∧
    (∀ k, max c1wA.num_frames c1wB.num_frames - 1 ≤ k →
      count_ones (Nat.xor (c1wA.thash.getD k 0) (c1wB.thash.getD k 0)) = 0)) :=
  ⟨⟨by decide, rfl, rfl⟩,
    C1_raw_distance_full_arrays "a" "b" [[1], [2], [4]] [[3], [6]] [[1], [2]] [[3]]
      c1wA c1wB (by decide) (by decide) (by decide) (by decide) (by decide) (by decide)
      (by decide) (by decide) rfl rfl⟩

/-- Round-to-nearest natural-number division (the specification's
`round(SCALE × N_MAX / m)`), for comparison with the source's truncation. -/
def roundDiv (a b : Nat) : Nat := (2 * a + b) / (2 * b)

def c3A : TemporalHash := mkHashD "a" [[0], [0]] [[1]]
def c3B : TemporalHash := mkHashD "b" [[1], [1]] [[0]]

/-- C3, counterexample: for two 2-frame fingerprints with raw temporal
distance 1, the scaled temporal distance is 640 = 1 × (640 / (m − 1)),
not 1 × round(640 / m) = 320 as the claim states. -/
theorem C3_counterexample :
    c3A.temporal_distance c3B ≠
      raw_distance c3A.thash c3B.thash *
        roundDiv (HASH_DISTANCE_SCALING_FACTOR * HASH_NUM_IMAGES)
          (min c3A.num_frames c3B.num_frames) ∧
    c3A.temporal_distance c3B = 640 ∧
    raw_distance c3A.thash c3B.thash = 1 ∧
    roundDiv (HASH_DISTANCE_SCALING_FACTOR * HASH_NUM_IMAGES)
      (min c3A.num_frames c3B.num_frames) = 320 := by
  decide

/-- C3, amended: with `m = min(nA, nB)` (between 2 and 10), the scaled
spatial distance is `raw_spatial × ⌊SCALE × N_MAX / m⌋` and the scaled
temporal distance is `raw_temporal × ⌊SCALE × N_MAX / (m − 1)⌋`: the
normalization tables truncate rather than round, and the temporal table
is indexed by `m − 1`. -/
theorem C3_scaling_floor (A B : TemporalHash)
    (hA1 : 2 ≤ A.num_frames) (hA2 : A.num_frames ≤ 10)
    (hB1 : 2 ≤ B.num_frames) (hB2 : B.num_frames ≤ 10) :
    A.spatial_distance B = raw_distance A.shash B.shash *
      (HASH_DISTANCE_SCALING_FACTOR * HASH_NUM_IMAGES / min A.num_frames B.num_frames) ∧
    A.temporal_distance B = raw_distance A.thash B.thash *
      (HASH_DISTANCE_SCALING_FACTOR * HASH_NUM_IMAGES /
        (min A.num_frames B.num_frames - 1)) := by
  rw [TemporalHash.spatial_distance, TemporalHash.temporal_distance]
  have hm1 : 2 ≤ min A.num_frames B.num_frames := le_min hA1 hB1
  have hm2 : min A.num_frames B.num_frames ≤ 10 := le_trans (min_le_left _ _) hA2
  set m := min A.num_frames B.num_frames with hm
  constructor
  · congr 1
    interval_cases m <;> decide
  · congr 1
    interval_cases m <;> decide

def c3wA : TemporalHash := mkHashD "a" [[1], [2], [4]] [[3], [6]]
def c3wB : TemporalHash := mkHashD "b" [[1], [3]] [[2]]

theorem C3_witness :
    (2 ≤ c3wA.num_frames ∧ c3wA.num_frames ≤ 10 ∧
      2 ≤ c3wB.num_frames ∧ c3wB.num_frames ≤ 10) ∧
    (c3wA.spatial_distance c3wB = raw_distance c3wA.shash c3wB.shash *
      (HASH_DISTANCE_SCALING_FACTOR * HASH_NUM_IMAGES /
        min c3wA.num_frames c3wB.num_frames) ∧
    c3wA.temporal_distance c3wB = raw_distance c3wA.thash c3wB.thash *
      (HASH_DISTANCE_SCALING_FACTOR * HASH_NUM_IMAGES /
        (min c3wA.num_frames c3wB.num_frames - 1))) :=
  ⟨⟨by decide, by decide, by decide, by decide⟩,
    C3_scaling_floor c3wA c3wB (by decide) (by decide) (by decide) (by decide)⟩

def c5A : TemporalHash := mkHashD "p" [[1], [1]] [[0]]
def c5A2 : TemporalHash := mkHashD "a2" [[1], [1]] [[0]]
def c5B : TemporalHash := mkHashD "p" [[2], [2]] [[0]]
def c5B2 : TemporalHash := mkHashD "b2" [[2], [2]] [[0]]

/-- C5, counterexample: when two distinct input fingerprints share the
source path "p" (each matching a distinct partner), deterministic
`find_all` emits two groups both containing "p". -/
theorem C5_counterexample :
    ¬((find_all_deterministic [c5A, c5A2, c5B, c5B2] ⟨0, 0⟩ true).countP
      (fun g => decide ("p" ∈ g.duplicates)) ≤ 1) := by
  have h : find_all_deterministic [c5A, c5A2, c5B, c5B2] ⟨0, 0⟩ true =
      findAllLoopVecFuel 5 ([c5A, c5A2, c5B, c5B2].foldl SearchVec.seed SearchVec.new)
        ⟨0, 0⟩ := by
    show find_all_vec_deterministic [c5A, c5A2, c5B, c5B2] ⟨0, 0⟩ = _
    rw [find_all_vec_deterministic]
    apply findAllLoopVec_eq_fuel
    decide
  rw [h]
  decide

/-- C5, amended: in deterministic mode (either backend), provided the
input fingerprints carry pairwise-distinct source paths, each path appears
in at most one of the match groups returned by `find_all`; the
consume-on-match flag plus dropping tainted items between batch iterations
guarantees this per seeded entry, and distinct paths transfer it to paths. -/
theorem C5_each_path_at_most_one_group (hashes : List TemporalHash)
    (tol : ScaledTolerance) (vec_search : Bool)
    (hnd : (hashes.map TemporalHash.src_path).Nodup) (p : String) :
    (find_all_deterministic hashes tol vec_search).countP
      (fun g => decide (p ∈ g.duplicates)) ≤ 1 := by
  cases vec_search with
  | true =>
    show (find_all_vec_deterministic hashes tol).countP
      (fun g => decide (p ∈ g.duplicates)) ≤ 1
    rw [find_all_vec_deterministic]
    have hnodup : pathsVNodup (hashes.foldl SearchVec.seed SearchVec.new) := by
      rw [pathsVNodup, vecSeedAll]
      simp only [SearchVec.new, List.nil_append, List.map_map]
      have hcomp : ((fun e => e.value.src_path) ∘ fun h => (⟨false, h⟩ : SearchVecEntry)) =
          TemporalHash.src_path := rfl
      rw [hcomp]
      exact hnd
    refine le_trans (findAllLoopVec_count
      (hashes.foldl SearchVec.seed SearchVec.new).entries.length _ tol _
      (Nat.le_refl _) hnodup p) ?_
    by_cases hav : p ∈ availV (hashes.foldl SearchVec.seed SearchVec.new)
    · rw [if_pos hav]
    · rw [if_neg hav]
      omega
  | false =>
    show (find_all_bk_deterministic hashes tol).countP
      (fun g => decide (p ∈ g.duplicates)) ≤ 1
    rw [find_all_bk_deterministic]
    have hnodup : pathsBNodup (BkTree.fromList hashes) := by
      rw [pathsBNodup]
      have hperm := bk_fromList_values_perm hashes BkTree.new
      have hperm2 : (BkTree.fromList hashes).values.Perm hashes := by
        have hnv : BkTree.new.values = [] := rfl
        rw [BkTree.fromList]
        simpa [hnv] using hperm
      rw [pathsOf]
      exact ((hperm2.map TemporalHash.src_path).nodup_iff).mpr hnd
    refine le_trans (findAllLoopBk_count
      (BkTree.fromList hashes).values.length _ tol _ (Nat.le_refl _) hnodup p) ?_
    by_cases hav : p ∈ availB (BkTree.fromList hashes)
    · rw [if_pos hav]
    · rw [if_neg hav]
      omega

def c5wA : TemporalHash := mkHashD "wa" [[1], [1]] [[0]]
def c5wB : TemporalHash := mkHashD "wb" [[2], [2]] [[0]]

theorem C5_witness :
    (([c5wA, c5wB].map TemporalHash.src_path).Nodup) ∧
    ((find_all_deterministic [c5wA, c5wB] ⟨0, 0⟩ true).countP
      (fun g => decide ("wa" ∈ g.duplicates)) ≤ 1) :=
  ⟨by decide, C5_each_path_at_most_one_group [c5wA, c5wB] ⟨0, 0⟩ true (by decide) "wa"⟩

def c2H : TemporalHash := mkHashD "h" [[1], [1]] [[0]]

/-- C2: the two backends are NOT behaviorally equivalent.  Seeding the
same single fingerprint into both backends and running the same query
twice with `consume = false` and tolerance (0,0): the first query agrees,
but the BK-tree unconditionally taints its root after every `search_one`,
so its second query returns nothing and its `len` drops to 0, while the
linear backend returns the fingerprint again and reports `len` 1. -/
theorem C2_backends_diverge :
    ((BkTree.new.seed c2H).search_one c2H ⟨0, 0⟩ false).1 = [c2H] ∧
    ((SearchVec.new.seed c2H).search_one c2H ⟨0, 0⟩ false).1 = [c2H] ∧
    (((BkTree.new.seed c2H).search_one c2H ⟨0, 0⟩ false).2.search_one c2H
      ⟨0, 0⟩ false).1 = [] ∧
    (((SearchVec.new.seed c2H).search_one c2H ⟨0, 0⟩ false).2.search_one c2H
      ⟨0, 0⟩ false).1 = [c2H] ∧
    ((BkTree.new.seed c2H).search_one c2H ⟨0, 0⟩ false).2.len = 0 ∧
    ((SearchVec.new.seed c2H).search_one c2H ⟨0, 0⟩ false).2.len = 1 := by
  decide

def c4A : TemporalHash := mkHashD "a" [[1], [0]] [[1]]
def c4B : TemporalHash := mkHashD "b" [[0], [0]] [[2]]

/-- C4: the BK-tree does NOT descend into the children whose stored
(combined) distance lies in `[d(query,v) − T, d(query,v) + T]`.  Seeding A
then B stores B at combined distance 1600 from the root; querying B itself
with tolerance (0,0) gives `d(query, root) = 1600`, so the claim's rule
descends into the child and finds B (which is at distance (0,0) from
itself, as the linear backend confirms) — but the code compares the
combined key against the spatial-only range [320, 320] and the
temporal-only range [1280, 1280], descends nowhere and returns nothing. -/
theorem C4_prune_componentwise :
    ((c4B.distance c4A).u32_value = 1600) ∧
    ((c4B.distance c4A).spatial = 320 ∧ (c4B.distance c4A).temporal = 1280) ∧
    ((c4B.distance c4B).within_tolerance ⟨0, 0⟩ = true) ∧
    (((BkTree.new.seed c4A).seed c4B).search_one c4B ⟨0, 0⟩ false).1 = [] ∧
    (((SearchVec.new.seed c4A).seed c4B).search_one c4B ⟨0, 0⟩ false).1 = [c4B] := by
  decide

theorem bk_si_children_values (t : BkTree) (q : TemporalHash) (tol : ScaledTolerance)
    (c : Bool) :
    (t.search_inner q tol c).2.children.valuesList = t.children.valuesList := by
  cases t with
  | mk val tainted ch =>
    cases val with
    | none => rfl
    | some v =>
      rw [bk_search_inner_some]
      rw [BkTree.children, BkTree.children]
      exact bkCh_search_values ch q tol c _ _ _ _

/-- C9: every `BkTree::search_one` call stores `true` into the root's
taint flag — also when `consume` is false and when the root value did not
match — while preserving the root value and the children's stored values;
and once a state has a tainted root holding `v` (with `v` stored nowhere
else), no further `search_one` ever returns `v`, and
`into_without_unmatched` drops `v` from the rebuilt tree. -/
theorem C9_root_taints_on_search (t : BkTree) (q : TemporalHash)
    (tol : ScaledTolerance) (c : Bool) :
    ((t.search_one q tol c).2.value_tainted = true) ∧
    ((t.search_one q tol c).2.value = t.value) ∧
    ((t.search_one q tol c).2.children.valuesList = t.children.valuesList) ∧
    (∀ (s : BkTree) (v : TemporalHash) (q2 : TemporalHash) (tol2 : ScaledTolerance)
        (c2 : Bool), s.value = some v → s.value_tainted = true →
      v ∉ s.children.valuesList →
      v ∉ (s.search_one q2 tol2 c2).1 ∧ v ∉ s.into_without_unmatched.values) := by
  refine ⟨bk_search_one_tainted t q tol c, bk_search_one_rootvalue t q tol c, ?_, ?_⟩
  · rw [bk_so_state, BkTree.children]
    exact bk_si_children_values t q tol c
  · intro s v q2 tol2 c2 hval htaint hnotin
    rcases s with ⟨val, τ, ch⟩
    rw [BkTree.value] at hval
    rw [BkTree.value_tainted] at htaint
    rw [BkTree.children] at hnotin
    subst hval
    subst htaint
    constructor
    · intro hmem
      have hemit : ((BkTree.mk (some v) true ch).search_one q2 tol2 c2).1 =
          (if bkHit v true q2 tol2 then [v] else [])
            ++ (BkChildren.searchRange ch q2 tol2 c2 (sMinB v q2 tol2) (sMaxB v q2 tol2)
              (tMinB v q2 tol2) (tMaxB v q2 tol2)).1 := by
        show ((BkTree.mk (some v) true ch).search_inner q2 tol2 c2).1 = _
        rw [bk_search_inner_some]
      have hhit : bkHit v true q2 tol2 = false := by
        simp [bkHit]
      rw [hemit, hhit] at hmem
      simp at hmem
      have h1 : v ∈ ch.unmatchedItems :=
        (bkCh_sr_emitted_sublist ch q2 tol2 c2 _ _ _ _).subset hmem
      exact hnotin ((bkCh_unmatched_sublist ch).subset h1)
    · intro hmem
      have hitems : (BkTree.mk (some v) true ch).into_unmatched_items =
          ch.unmatchedItems := by
        rw [BkTree.into_unmatched_items]
        simp
      have hperm : (BkTree.mk (some v) true ch).into_without_unmatched.values.Perm
          (BkTree.mk (some v) true ch).into_unmatched_items := by
        have := bk_fromList_values_perm
          (BkTree.mk (some v) true ch).into_unmatched_items BkTree.new
        simpa [BkTree.new, BkTree.values, BkChildren.valuesList] using this
      have h2 : v ∈ (BkTree.mk (some v) true ch).into_unmatched_items :=
        hperm.subset hmem
      rw [hitems] at h2
      exact hnotin ((bkCh_unmatched_sublist ch).subset h2)

def c9H : TemporalHash := mkHashD "h9" [[1], [1]] [[0]]

theorem C9_witness :
    (((BkTree.new.seed c9H).search_one c9H ⟨0, 0⟩ false).2.value_tainted = true) ∧
    ((((BkTree.new.seed c9H).search_one c9H ⟨0, 0⟩ false).2.search_one c9H
      ⟨0, 0⟩ false).1 = [] →
      (((BkTree.new.seed c9H).search_one c9H ⟨0, 0⟩ false).2.value = some c9H ∧
        ((BkTree.new.seed c9H).search_one c9H ⟨0, 0⟩ false).2.value_tainted = true)) ∧
    (c9H ∉ (((BkTree.new.seed c9H).search_one c9H ⟨0, 0⟩ false).2.search_one c9H
      ⟨0, 0⟩ false).1 ∧
      c9H ∉ ((BkTree.new.seed c9H).search_one c9H ⟨0, 0⟩
        false).2.into_without_unmatched.values) :=
  ⟨(C9_root_taints_on_search (BkTree.new.seed c9H) c9H ⟨0, 0⟩ false).1,
    fun _ => ⟨by decide, by decide⟩,
    (C9_root_taints_on_search (BkTree.new.seed c9H) c9H ⟨0, 0⟩ false).2.2.2
      ((BkTree.new.seed c9H).search_one c9H ⟨0, 0⟩ false).2 c9H c9H ⟨0, 0⟩ false
      (by decide) (by decide) (by decide)⟩

theorem writeIntoZeros_all_zero (n : Nat) (l : List Nat) :
    ((writeIntoZeros n l).all (fun w => w == 0)) = l.all (fun w => w == 0) := by
  rw [writeIntoZeros, List.all_append]
  have hrep : (List.replicate (n - l.length) (0 : Nat)).all (fun w => w == 0) = true := by
    simp [List.all_eq_true]
  rw [hrep, Bool.and_true]

/-- C7: `TemporalHash::new` fails with `VideoTooShort` exactly when fewer
than 2 frames of hash words are supplied; given at least 2 frames it fails
with `EmptyHash` exactly when the spatial and the temporal words are all
zero; in every other case it returns a fingerprint.  The two length bounds
delimit the domain on which the Rust `copy_from_slice` does not panic. -/
theorem C7_construction_errors (src : String) (s t : List (List Nat))
    (hs : s.flatten.length ≤ SPATIAL_HASH_QWORDS)
    (ht : t.flatten.length ≤ TEMPORAL_HASH_QWORDS) :
    (TemporalHash.new src s t = .error (.VideoTooShortError src) ↔ s.length < 2) ∧
    (2 ≤ s.length →
      (TemporalHash.new src s t = .error (.EmptyHashError src) ↔
        (s.flatten.all (fun w => w == 0) = true ∧ t.flatten.all (fun w => w == 0) = true))) ∧
    (2 ≤ s.length →
      ¬(s.flatten.all (fun w => w == 0) = true ∧ t.flatten.all (fun w => w == 0) = true) →
      ∃ h, TemporalHash.new src s t = .ok h) := by
  have hz : (TemporalHash.shash_is_all_zeroes
        ⟨writeIntoZeros TEMPORAL_HASH_QWORDS t.flatten,
         writeIntoZeros SPATIAL_HASH_QWORDS s.flatten, s.length, src⟩ &&
      TemporalHash.thash_is_all_zeroes
        ⟨writeIntoZeros TEMPORAL_HASH_QWORDS t.flatten,
         writeIntoZeros SPATIAL_HASH_QWORDS s.flatten, s.length, src⟩) =
      (s.flatten.all (fun w => w == 0) && t.flatten.all (fun w => w == 0)) := by
    rw [TemporalHash.shash_is_all_zeroes, TemporalHash.thash_is_all_zeroes]
    show ((writeIntoZeros SPATIAL_HASH_QWORDS s.flatten).all (fun w => w == 0) &&
      (writeIntoZeros TEMPORAL_HASH_QWORDS t.flatten).all (fun w => w == 0)) = _
    rw [writeIntoZeros_all_zero, writeIntoZeros_all_zero]
  by_cases h1 : s.length < 2
  · refine ⟨⟨fun _ => h1, fun _ => by rw [TemporalHash.new, if_pos h1]⟩,
      fun h2 => absurd h1 (by omega), fun h2 _ => absurd h1 (by omega)⟩
  · have hnew : TemporalHash.new src s t =
        (if (s.flatten.all (fun w => w == 0) && t.flatten.all (fun w => w == 0)) = true
          then .error (.EmptyHashError src)
          else .ok ⟨writeIntoZeros TEMPORAL_HASH_QWORDS t.flatten,
            writeIntoZeros SPATIAL_HASH_QWORDS s.flatten, s.length, src⟩) := by
      rw [TemporalHash.new, if_neg h1]
      show (if ((⟨writeIntoZeros TEMPORAL_HASH_QWORDS t.flatten,
            writeIntoZeros SPATIAL_HASH_QWORDS s.flatten, s.length,
            src⟩ : TemporalHash).shash_is_all_zeroes &&
          (⟨writeIntoZeros TEMPORAL_HASH_QWORDS t.flatten,
            writeIntoZeros SPATIAL_HASH_QWORDS s.flatten, s.length,
            src⟩ : TemporalHash).thash_is_all_zeroes) = true
        then Except.error (HashCreationErrorKind.EmptyHashError src)
        else Except.ok (⟨writeIntoZeros TEMPORAL_HASH_QWORDS t.flatten,
          writeIntoZeros SPATIAL_HASH_QWORDS s.flatten, s.length,
          src⟩ : TemporalHash)) = _
      rw [hz]
    by_cases h2 : (s.flatten.all (fun w => w == 0) && t.flatten.all (fun w => w == 0)) = true
    · rw [if_pos h2] at hnew
      refine ⟨⟨?_, fun hlen => absurd hlen h1⟩, ?_, ?_⟩
      · intro heq
        rw [hnew] at heq
        simp at heq
      · intro _
        constructor
        · intro _
          rw [Bool.and_eq_true] at h2
          exact h2
        · intro _
          exact hnew
      · intro _ hcontra
        rw [Bool.and_eq_true] at h2
        exact absurd h2 hcontra
    · rw [if_neg h2] at hnew
      refine ⟨⟨?_, fun hlen => absurd hlen h1⟩, ?_, ?_⟩
      · intro heq
        rw [hnew] at heq
        simp at heq
      · intro _
        constructor
        · intro heq
          rw [hnew] at heq
          simp at heq
        · intro hcontra
          rw [← Bool.and_eq_true] at hcontra
          exact absurd hcontra h2
      · intro _ _
        exact ⟨_, hnew⟩

theorem C7_witness :
    (([[0], [0]] : List (List Nat)).flatten.length ≤ SPATIAL_HASH_QWORDS ∧
      ([[5]] : List (List Nat)).flatten.length ≤ TEMPORAL_HASH_QWORDS) ∧
    ((TemporalHash.new "w" [[0], [0]] [[5]] = .error (.VideoTooShortError "w") ↔
      ([[0], [0]] : List (List Nat)).length < 2) ∧
    (2 ≤ ([[0], [0]] : List (List Nat)).length →
      (TemporalHash.new "w" [[0], [0]] [[5]] = .error (.EmptyHashError "w") ↔
        (([[0], [0]] : List (List Nat)).flatten.all (fun w => w == 0) = true ∧
          ([[5]] : List (List Nat)).flatten.all (fun w => w == 0) = true))) ∧
    (2 ≤ ([[0], [0]] : List (List Nat)).length →
      ¬(([[0], [0]] : List (List Nat)).flatten.all (fun w => w == 0) = true ∧
        ([[5]] : List (List Nat)).flatten.all (fun w => w == 0) = true) →
      ∃ h, TemporalHash.new "w" [[0], [0]] [[5]] = .ok h)) :=
  ⟨⟨by decide, by decide⟩,
    C7_construction_errors "w" [[0], [0]] [[5]] (by decide) (by decide)⟩

theorem cacheLookup_insert {T : Type} (m : List (String × MtimeCacheEntry T))
    (k : String) (e : MtimeCacheEntry T) : cacheLookup (cacheInsert m k e) k = some e := by
  simp [cacheInsert, cacheLookup, List.find?_cons_of_pos]

/-- C6: for a path whose entry is present in the cache and that exists on
disk, `get_insert` recomputes exactly when the absolute difference of the
whole-second mtimes exceeds 2: at a difference of at most 2 (in
particular exactly 2) the cached entry is returned and the cache is
unchanged, at a difference greater than 2 (in particular 3) the entry is
recomputed and reinserted with the filesystem mtime. -/
theorem C6_staleness_threshold {T : Type} (c : ProcessingFsCache T) (key : String)
    (mtime : Nat) (val : T) (fsm : Nat)
    (hentry : cacheLookup c.map key = some ⟨mtime, val⟩)
    (hfs : c.fs_mtime_secs key = some fsm) :
    (((mtime : Int) - (fsm : Int)).natAbs ≤ 2 → c.get_insert key = some (val, c)) ∧
    (2 < ((mtime : Int) - (fsm : Int)).natAbs →
      c.get_insert key = some (c.processing_fn key,
        { c with map := cacheInsert c.map key ⟨fsm, c.processing_fn key⟩ })) := by
  have hkp : c.contains_key key = true := by
    rw [ProcessingFsCache.contains_key, hentry]
    rfl
  have hvs : c.val_is_stale key =
      some (decide (2 < (((mtime : Int) - (fsm : Int)).natAbs)), fsm) := by
    simp [ProcessingFsCache.val_is_stale, hentry, hfs]
  constructor
  · intro hle
    have hstale : decide (2 < (((mtime : Int) - (fsm : Int)).natAbs)) = false := by
      simp
      omega
    rw [ProcessingFsCache.get_insert]
    simp only [hkp, hvs, hstale, if_true]
    simp [ProcessingFsCache.get, hentry]
  · intro hgt
    have hstale : decide (2 < (((mtime : Int) - (fsm : Int)).natAbs)) = true := by
      simpa using hgt
    rw [ProcessingFsCache.get_insert]
    simp only [hkp, hvs, hstale, if_true]
    simp [ProcessingFsCache.force_insert, ProcessingFsCache.get, cacheLookup_insert]

theorem C6_witness :
    (cacheLookup ((⟨[("f", ⟨10, 42⟩)], fun _ => some 12, fun _ => 99⟩ :
        ProcessingFsCache Nat).map) "f" = some ⟨10, 42⟩) ∧
    ((⟨[("f", ⟨10, 42⟩)], fun _ => some 12, fun _ => 99⟩ :
        ProcessingFsCache Nat).fs_mtime_secs "f" = some 12) ∧
    ((⟨[("f", ⟨10, 42⟩)], fun _ => some 12, fun _ => 99⟩ :
        ProcessingFsCache Nat).get_insert "f"
      = some (42, ⟨[("f", ⟨10, 42⟩)], fun _ => some 12, fun _ => 99⟩)) ∧
    (cacheLookup ((⟨[("f", ⟨10, 42⟩)], fun _ => some 13, fun _ => 99⟩ :
        ProcessingFsCache Nat).map) "f" = some ⟨10, 42⟩) ∧
    ((⟨[("f", ⟨10, 42⟩)], fun _ => some 13, fun _ => 99⟩ :
        ProcessingFsCache Nat).fs_mtime_secs "f" = some 13) ∧
    ((⟨[("f", ⟨10, 42⟩)], fun _ => some 13, fun _ => 99⟩ :
        ProcessingFsCache Nat).get_insert "f"
      = some (99, ⟨[("f", ⟨13, 99⟩)], fun _ => some 13, fun _ => 99⟩)) := by
  refine ⟨rfl, rfl, ?_, rfl, rfl, ?_⟩
  · exact (C6_staleness_threshold
      (⟨[("f", ⟨10, 42⟩)], fun _ => some 12, fun _ => 99⟩ : ProcessingFsCache Nat)
      "f" 10 42 12 rfl rfl).1 (by decide)
  · have h := (C6_staleness_threshold
      (⟨[("f", ⟨10, 42⟩)], fun _ => some 13, fun _ => 99⟩ : ProcessingFsCache Nat)
      "f" 10 42 13 rfl rfl).2 (by decide)
    simpa [cacheInsert] using h

/-- C8 (counterexample): the source blacklist and the spec's claimed
blacklist differ — `gif` is excluded by the source but absent from the
spec's set, and `bmp` is in the spec's set but survives the source's
extension filter. -/
theorem C8_counterexample :
    excludedByExtension (some "gif") = true ∧ "gif" ∉ specClaimedExts ∧
    excludedByExtension (some "bmp") = false ∧ "bmp" ∈ specClaimedExts := by
  refine ⟨by decide, by decide, by decide, by decide⟩

/-- C8 (amended): a file is excluded by the extension conjunct of
`FileSet::should_keep` exactly when its lowercased extension is in the
default blacklist `{png, jpg, jpeg, gif, txt}`; any extension whose
lowercasing is outside that set survives the extension filter. -/
theorem C8_extension_blacklist (ext : String) :
    (excludedByExtension (some ext) = true ↔ to_lowercase ext ∈ EXCL_EXTS) ∧
    (keptByExtensionFilter (some ext) = true ↔ to_lowercase ext ∉ EXCL_EXTS) := by
  have h : excludedByExtension (some ext) = true ↔ to_lowercase ext ∈ EXCL_EXTS := by
    simp [excludedByExtension, List.any_eq_true]
  refine ⟨h, ?_⟩
  rw [keptByExtensionFilter, Bool.not_eq_true', ← Bool.not_eq_true, h]

/-- C10: for a match group with a reference `r` and duplicates `d1..dn`,
`cartesian_product` returns exactly `n` groups, one per duplicate, each
built by `MatchGroup::new [r, di]` — so each output group has `reference`
`none` (the input's reference designation is not preserved) and duplicate
list `[r, di]`. -/
theorem C10_cartesian_reference (g : MatchGroup) (tolerance : ScaledTolerance)
    (get_hash : String → TemporalHash) (r : String) (href : g.reference = some r) :
    g.cartesian_product tolerance get_hash
      = g.duplicates.map (fun e => MatchGroup.new [r, e]) ∧
    (g.cartesian_product tolerance get_hash).length = g.duplicates.length ∧
    ∀ g2 ∈ g.cartesian_product tolerance get_hash,
      g2.getReference = none ∧ ∃ e ∈ g.duplicates, g2.duplicates = [r, e] := by
  have h1 : g.cartesian_product tolerance get_hash
      = g.duplicates.map (fun e => MatchGroup.new [r, e]) := by
    simp [MatchGroup.cartesian_product, href]
  refine ⟨h1, by rw [h1, List.length_map], ?_⟩
  intro g2 hg2
  rw [h1] at hg2
  obtain ⟨e, he, heq⟩ := List.mem_map.mp hg2
  exact ⟨by rw [← heq]; rfl, e, he, by rw [← heq]; rfl⟩

theorem C10_witness :
    ((⟨some "r", ["d1", "d2"]⟩ : MatchGroup).reference = some "r") ∧
    MatchGroup.cartesian_product ⟨some "r", ["d1", "d2"]⟩ ⟨0, 0⟩ (fun _ => default)
      = [MatchGroup.new ["r", "d1"], MatchGroup.new ["r", "d2"]] :=
  ⟨rfl, (C10_cartesian_reference ⟨some "r", ["d1", "d2"]⟩ ⟨0, 0⟩
    (fun _ => default) "r" rfl).1⟩
